import Mathlib

/-!
# Verification of the SGV Vigilance Report DOCX template pipeline

Shallow embedding of `src/utils/docx_handler.py` (class `DocxHandler`):
placeholder matching, text substitution, image embedding, per-record
filename derivation and the batch orchestrator
`generate_multiple_client_reports`.

Strings are modelled by Lean `String` (lists of characters underneath);
pandas scalar cell values by an inductive `Val` distinguishing ordinary
strings from `None` and `NaN`; a record (one DataFrame row, as produced by
`df.iloc[i].to_dict()`) by an association list from column name to value.
Python `str.replace` (for non-empty patterns, the only case the code
exercises) is re-implemented as the left-to-right non-overlapping scan
`replaceAllAux`.
-/

set_option maxHeartbeats 1000000

deriving instance DecidableEq for Except

namespace SGV

/-- A pandas scalar cell value: an ordinary string, Python `None`, or a
float `NaN` (how pandas encodes a missing cell). -/
inductive Val where
  | vStr (s : String)
  | vNone
  | vNan
deriving DecidableEq

/-- `pd.notna` on a scalar: true exactly for ordinary values. -/
def pdNotna : Val → Bool
  | .vStr _ => true
  | .vNone => false
  | .vNan => false

/-- Python `str(v)` on a scalar: `str(None) = "None"`, `str(float('nan')) = "nan"`. -/
def pyStr : Val → String
  | .vStr s => s
  | .vNone => "None"
  | .vNan => "nan"

/-- The string substituted by `replace_placeholders`
(`str(value) if pd.notna(value) else ''`, docx_handler.py line 116). -/
def strOfVal (v : Val) : String :=
  if pdNotna v then pyStr v else ""

/-- A record: one row of the DataFrame as `df.iloc[i].to_dict()`, an
ordered association list from column name to scalar value. -/
abbrev Rec := List (String × Val)

/-- `series.get(key, default)` without the default: `none` when the label
is absent from the row's index. -/
def recGet (r : Rec) (k : String) : Option Val :=
  (r.find? (fun kv => kv.1 == k)).map (fun kv => kv.2)

/-! ## Python string primitives -/

/-- Whitespace characters recognised by Python `str.strip()` (ASCII part). -/
def pyWs (c : Char) : Bool :=
  c == ' ' || c == '\t' || c == '\n' || c == '\r' || c == '\x0b' || c == '\x0c'

/-- `str.strip()` on the character list: drop whitespace from both ends. -/
def stripL (l : List Char) : List Char :=
  ((l.dropWhile pyWs).reverse.dropWhile pyWs).reverse

/-- `str.strip()`. -/
def pyStrip (s : String) : String := ⟨stripL s.data⟩

/-- The characters removed from site names by
`re.sub(r'[<>:"/\\|?*]', '_', ...)` (docx_handler.py line 438). -/
def illegalFnameChar (c : Char) : Bool :=
  c == '<' || c == '>' || c == ':' || c == '"' || c == '/' || c == '\\' ||
    c == '|' || c == '?' || c == '*'

/-- `re.sub(r'[<>:"/\\|?*]', '_', s)`: each illegal filename character
becomes an underscore. -/
def cleanSiteL (l : List Char) : List Char :=
  l.map (fun c => if illegalFnameChar c then '_' else c)

/-- `re.sub(r'[<>:"/\\|?*]', '_', s)` on strings. -/
def cleanSite (s : String) : String := ⟨cleanSiteL s.data⟩

/-- `str.replace('/', '-')`: single-character replacement is a character map. -/
def slashToHyphen (s : String) : String :=
  ⟨s.data.map (fun c => if c == '/' then '-' else c)⟩

/-- Python `str.replace(pat, rep)` for a non-empty pattern `p :: ps`:
scan left to right; at each position, if the pattern is a prefix of the
rest, emit the replacement and skip past the match (non-overlapping),
otherwise emit one character and continue. -/
def replaceAllAux (p : Char) (ps rep : List Char) : List Char → List Char
  | [] => []
  | a :: s =>
    if (p :: ps).isPrefixOf (a :: s) then
      rep ++ replaceAllAux p ps rep (s.drop ps.length)
    else
      a :: replaceAllAux p ps rep s
termination_by l => l.length
decreasing_by
  · simp only [List.length_drop, List.length_cons]; omega
  · simp only [List.length_cons]; omega

/-- Python `str.replace(pat, rep)`.  Every pattern used by the code has the
shape `"{name}"` and is therefore non-empty, so the empty-pattern branch
(where Python would interleave `rep` between characters) is unreachable in
this development; it is mapped to the identity. -/
def pyReplace (s pat rep : String) : String :=
  match pat.data with
  | [] => s
  | p :: ps => ⟨replaceAllAux p ps rep.data s.data⟩

/-- Python substring membership `pat in hay` on character lists. -/
def containsSubL (pat : List Char) : List Char → Bool
  | [] => pat.isPrefixOf []
  | a :: s => pat.isPrefixOf (a :: s) || containsSubL pat s

/-- Python substring membership `pat in hay`. -/
def containsSub (hay pat : String) : Bool := containsSubL pat.data hay.data

/-- The literal placeholder token for a name: `f'{{{name}}}'`
(docx_handler.py line 113). -/
def tokStr (name : String) : String := "\x7b" ++ name ++ "\x7d"

/-- Decimal rendering, with explicit fuel so that the recursion is
structural (the fuel is always at least the number being rendered, so the
fuel-exhausted base case coincides with the one-digit case). -/
def decReprAux : Nat → Nat → List Char
  | 0, n => [Nat.digitChar n]
  | fuel + 1, n =>
    if n < 10 then [Nat.digitChar n]
    else decReprAux fuel (n / 10) ++ [Nat.digitChar (n % 10)]

/-- Decimal rendering of a natural number, as produced by a Python
f-string interpolation of an `int`. -/
def decRepr (n : Nat) : List Char := decReprAux n n

/-- Decimal rendering as a string. -/
def decReprS (n : Nat) : String := ⟨decRepr n⟩

/-! ## Document model

A python-docx document is modelled by its body paragraphs and its tables.
A paragraph (and likewise a table cell) carries its text together with the
pictures embedded in its runs; assigning `paragraph.text` (or `cell.text`)
replaces the whole content, which clears any embedded pictures. -/

/-- A body paragraph: its text and the pictures embedded in its runs. -/
structure Para where
  text : String
  imgs : List String
deriving DecidableEq

/-- A table cell: its text and the pictures embedded in it. -/
structure Cell where
  text : String
  imgs : List String
deriving DecidableEq

abbrev Row := List Cell
abbrev Table := List Row

/-- A python-docx document: body paragraphs (`doc.paragraphs`) and tables
(`doc.tables`).  `doc.add_paragraph` appends at the end of the body, i.e.
at the end of `paras`. -/
structure Doc where
  paras : List Para
  tables : List Table
deriving DecidableEq

/-! ## replace_placeholders (docx_handler.py lines 94-133) -/

/-- The two reserved image placeholder names
(docx_handler.py lines 110 and 125). -/
def imageNames : List String := ["Images", "EVIDENCE & ATTACHMENTS - Photos"]

/-- One iteration of the inner loop of `replace_placeholders` on one
paragraph or cell, acting on its (text, embedded pictures) state: skip the
reserved image placeholders when `skipImages`; otherwise, when the literal
token occurs in the text, assign the replaced text (the assignment rebuilds
the runs, clearing embedded pictures). -/
def applyPairTI (skipImages : Bool) (ti : String × List String)
    (kv : String × Val) : String × List String :=
  if skipImages = true ∧ kv.1 ∈ imageNames then ti
  else
    let tokText := tokStr kv.1
    if containsSub ti.1 tokText then (pyReplace ti.1 tokText (strOfVal kv.2), [])
    else ti

/-- The full inner loop of `replace_placeholders` over `data_dict.items()`
for one paragraph or cell. -/
def fillTI (skipImages : Bool) (pairs : Rec) (ti : String × List String) :
    String × List String :=
  pairs.foldl (applyPairTI skipImages) ti

/-- `replace_placeholders(doc, data_dict, skip_images)`: run the
substitution loop over every paragraph, then over every table cell. -/
def replacePlaceholders (doc : Doc) (pairs : Rec) (skipImages : Bool) : Doc :=
  { paras := doc.paras.map (fun p =>
      let ti := fillTI skipImages pairs (p.text, p.imgs)
      { text := ti.1, imgs := ti.2 }),
    tables := doc.tables.map (fun t => t.map (fun row => row.map (fun c =>
      let ti := fillTI skipImages pairs (c.text, c.imgs)
      { text := ti.1, imgs := ti.2 }))) }

/-! ## embed_images (docx_handler.py lines 135-278) -/

/-- Python `str(doc)` on a python-docx `Document`: the class defines no
custom string conversion, so Python falls back to the default object repr
`"<docx.document.Document object at 0x...>"`.  The hexadecimal address is
immaterial here: the repr never contains a brace, so the placeholder
membership tests of lines 157 and 161 are false for every document. -/
def strDoc (_d : Doc) : String := "<docx.document.Document object at 0x000001A2B3C4D5E6>"

/-- Truthiness-or-NaN test of line 171:
`not images_value or pd.isna(images_value)` (the empty string is falsy,
`None` and `NaN` are caught by `pd.isna`; `not float('nan')` is `False`). -/
def valFalsyOrNa : Val → Bool
  | .vStr s => s == ""
  | .vNone => true
  | .vNan => true

/-- Paragraph scan of lines 187-232: find the first paragraph containing
the token, assign `text.replace(token, '')` to it (clearing its pictures),
and report whether one was found.  The loop breaks after the first hit. -/
def embedParasAux (tok : String) : List Para → List Para × Bool
  | [] => ([], false)
  | p :: rest =>
    if containsSub p.text tok then
      ({ text := pyReplace p.text tok "", imgs := [] } :: rest, true)
    else
      let r := embedParasAux tok rest
      (p :: r.1, r.2)

/-- The paragraphs appended at the body end for the fetched images (lines
198-229): for the i-th image, `doc.add_paragraph()` plus
`run.add_picture(...)`, then a caption paragraph `f'Image {i+1}'`. -/
def imageParasFor (imgs : List String) : List Para :=
  imgs.enum.flatMap (fun p =>
    [{ text := "", imgs := [p.2] }, { text := "Image " ++ decReprS (p.1 + 1), imgs := [] }])

/-- Cell scan within one row (lines 240-270): at the first cell containing
the token, assign the cleared text (dropping its pictures) and add every
fetched image to the cell; no captions are added in the table branch. -/
def embedCellsInRow (tok : String) (imgs : List String) : Row → Row × Bool
  | [] => ([], false)
  | c :: rest =>
    if containsSub c.text tok then
      ({ text := pyReplace c.text tok "", imgs := imgs } :: rest, true)
    else
      let r := embedCellsInRow tok imgs rest
      (c :: r.1, r.2)

/-- Row scan within one table; stops at the first row that contained the token. -/
def embedRowsInTable (tok : String) (imgs : List String) : Table → Table × Bool
  | [] => ([], false)
  | row :: rest =>
    let r := embedCellsInRow tok imgs row
    if r.2 then (r.1 :: rest, true)
    else
      let rr := embedRowsInTable tok imgs rest
      (row :: rr.1, rr.2)

/-- Table scan (lines 238-273); the `return doc` makes it stop at the
first cell that contained the token, anywhere in the document's tables. -/
def embedTablesList (tok : String) (imgs : List String) : List Table → List Table × Bool
  | [] => ([], false)
  | t :: rest =>
    let r := embedRowsInTable tok imgs t
    if r.2 then (r.1 :: rest, true)
    else
      let rr := embedTablesList tok imgs rest
      (t :: rr.1, rr.2)

/-- `embed_images(doc, data_dict)` with the image handler abstracted as a
function `fetch` from the stringified field value to the list of
successfully fetched-and-encoded images
(`ImageHandler.download_and_encode_images`).  Faithful to the source: the
placeholder detection tests substring membership in `str(doc)` (lines 157
and 161); after the paragraph loop `break`s, the table scan still runs
unconditionally (lines 238-273). -/
def embedImages (imageHandler : Option (String → List String)) (doc : Doc)
    (r : Rec) : Doc :=
  match imageHandler with
  | none => doc
  | some fetch =>
    let sdoc := strDoc doc
    let found? : Option (String × Val) :=
      if containsSub sdoc (tokStr "EVIDENCE & ATTACHMENTS - Photos") then
        some (tokStr "EVIDENCE & ATTACHMENTS - Photos",
          (recGet r "EVIDENCE & ATTACHMENTS - Photos").getD (.vStr ""))
      else if containsSub sdoc (tokStr "Images") then
        some (tokStr "Images", (recGet r "Images").getD (.vStr ""))
      else none
    match found? with
    | none => doc
    | some tv =>
      if valFalsyOrNa tv.2 then doc
      else
        let imgs := fetch (pyStr tv.2)
        if imgs.isEmpty then doc
        else
          let pr := embedParasAux tv.1 doc.paras
          let paras2 := if pr.2 then pr.1 ++ imageParasFor imgs else pr.1
          let tr := embedTablesList tv.1 imgs doc.tables
          { paras := paras2, tables := tr.1 }

/-! ## generate_from_template (docx_handler.py lines 280-321) -/

/-- `generate_from_template`: raise on an empty DataFrame, silently reset
an out-of-range row index to 0, take the row as a dict, substitute text
placeholders (with image placeholders skipped) and, when an image handler
is present, run `embed_images`.  Exceptions are re-raised with the prefix
`"Error generating document from template: "`. -/
def generateFromTemplate (imageHandler : Option (String → List String))
    (doc : Doc) (df : List Rec) (rowIndex : Nat) : Except String Doc :=
  if df.length = 0 then
    .error "Error generating document from template: DataFrame is empty"
  else
    let i := if rowIndex ≥ df.length then 0 else rowIndex
    let r := df.getD i []
    let d1 := replacePlaceholders doc r true
    let d2 := if imageHandler.isSome then embedImages imageHandler d1 r else d1
    .ok d2

/-! ## Filename derivation and the batch orchestrator
(docx_handler.py lines 394-493) -/

/-- Line 434: `df.iloc[index].get('Site Name', f'Site_{index+1}')` followed
by `str(...)`.  The fallback fires only when the column label is absent;
a present value is stringified unconditionally (no `pd.notna` guard). -/
def siteStrOf (r : Rec) (index : Nat) : String :=
  match recGet r "Site Name" with
  | some v => pyStr v
  | none => "Site_" ++ decReprS (index + 1)

/-- Lines 442-446: the date component; an absent column yields today's
date (which then passes the `pd.notna` test and has its slashes replaced),
a present non-null value is stringified with `/` replaced by `-`, and a
null value yields today's date. -/
def dateStrOf (r : Rec) (today : String) : String :=
  match recGet r "Date" with
  | none => slashToHyphen today
  | some v => if pdNotna v then slashToHyphen (pyStr v) else today

/-- The cleaned-site-plus-date stem the batch loop builds its filenames
from: `clean_site_name` (illegal characters replaced, then stripped)
joined to `date_str` by an underscore. -/
def stemOf (r : Rec) (index : Nat) (today : String) : String :=
  pyStrip (cleanSite (siteStrOf r index)) ++ "_" ++ dateStrOf r today

/-- The candidate filenames tried for one record: the base name
`f"{clean_site_name}_{date_str}_Report.pdf"` for `k = 0`, then
`f"{clean_site_name}_{date_str}_Report_{k}.pdf"` for `k = 1, 2, ...`
(lines 449 and 455). -/
def candName (stem : String) : Nat → String
  | 0 => stem ++ "_Report.pdf"
  | k + 1 => stem ++ "_Report_" ++ decReprS (k + 1) ++ ".pdf"

/-- The base filename composed for one record (line 449). -/
def deriveBase (r : Rec) (index : Nat) (today : String) : String :=
  candName (stemOf r index today) 0

/-- The `while filename in file_list` loop of lines 452-456: starting from
candidate `k`, advance while the candidate is taken.  The loop always
terminates because the candidates are pairwise distinct and `file_list` is
finite; `used.length + 1` steps always suffice, so the fuel-exhausted
branch is unreachable. -/
def resolveLoop (used : List String) (stem : String) : Nat → Nat → Nat
  | 0, k => k
  | fuel + 1, k =>
    if candName stem k ∈ used then resolveLoop used stem fuel (k + 1) else k

/-- The collision-free filename chosen for one record given the filenames
already in `file_list`. -/
def resolveName (used : List String) (stem : String) : String :=
  candName stem (resolveLoop used stem (used.length + 1) 0)

/-- The batch input: `None`, a non-sized object (carrying the text Python
would print for `type(df)`), or a proper record table. -/
inductive DfInput where
  | noneDf
  | notSized (typeName : String)
  | table (records : List Rec)

/-- The per-record loop of `generate_multiple_client_reports` (lines
430-476): derive the collision-free filename, append it to `file_list`,
generate the record's PDF (abstracted as `conv index`, the outcome of
`generate_client_report` for that row), and add the entry to the archive.
A conversion error re-raises and aborts the loop. -/
def gmLoop (today : String) (conv : Nat → Except String String) :
    List Rec → Nat → List String → List (String × String) →
    Except String (List (String × String) × List String)
  | [], _, fileList, zipAcc => .ok (zipAcc, fileList)
  | r :: rest, index, fileList, zipAcc =>
    let stem := stemOf r index today
    let filename := resolveName fileList stem
    let fileList2 := fileList ++ [filename]
    match conv index with
    | .error e => .error e
    | .ok pdf => gmLoop today conv rest (index + 1) fileList2 (zipAcc ++ [(filename, pdf)])

/-- `generate_multiple_client_reports(template_file, df)` with PDF
generation abstracted by `conv`.  Input validation happens first; any
exception is wrapped with the prefix
`"Error generating multiple client reports: "` plus a suffix describing
the `None`/non-sized cases (lines 482-493).  On success it returns the
archive entries, the record count and the filename list. -/
def generateMultipleReports (df : DfInput) (today : String)
    (conv : Nat → Except String String) :
    Except String (List (String × String) × Nat × List String) :=
  match df with
  | .noneDf =>
    .error ("Error generating multiple client reports: DataFrame is None. Please ensure data is loaded and filtered correctly." ++ " | DataFrame is None")
  | .notSized t =>
    .error ("Error generating multiple client reports: Invalid DataFrame type: " ++ t ++ ". Expected pandas DataFrame." ++ " | DataFrame type issue: " ++ t)
  | .table records =>
    if records.length = 0 then
      .error "Error generating multiple client reports: DataFrame is empty. No records to generate reports for."
    else
      match gmLoop today conv records 0 [] [] with
      | .error e => .error ("Error generating multiple client reports: " ++ e)
      | .ok za => .ok (za.1, records.length, za.2)

/-! ## Text-level view of the substitution loop

`fillTI` acts on a (text, pictures) pair; for reasoning about the text
alone we use the projection below and prove it agrees with `fillTI`. -/

/-- The text component of one iteration of the `replace_placeholders`
inner loop. -/
def applyPairStr (skipImages : Bool) (t : String) (kv : String × Val) : String :=
  if skipImages = true ∧ kv.1 ∈ imageNames then t
  else if containsSub t (tokStr kv.1) then pyReplace t (tokStr kv.1) (strOfVal kv.2)
  else t

/-- The text component of the full substitution loop on one paragraph or
cell. -/
def fillTextStr (skipImages : Bool) (pairs : Rec) (t : String) : String :=
  pairs.foldl (applyPairStr skipImages) t

/-! ## Well-formed template texts

A paragraph or cell text of a sane template is an alternation of
brace-free chunks and `{name}` placeholder tokens (the spec's token
grammar: `{` + one-or-more non-`}` characters + `}`, no nesting).  This
shape is what the positive substitution theorems quantify over. -/

/-- One piece of a template text: a literal chunk or a placeholder token. -/
inductive TItem where
  | chunk (s : List Char)
  | tok (n : List Char)
deriving DecidableEq

/-- The literal characters of a `{name}` token. -/
def tokL (k : List Char) : List Char := '\x7b' :: (k ++ ['\x7d'])

/-- Characters of one template piece. -/
def renderItem : TItem → List Char
  | .chunk s => s
  | .tok n => tokL n

/-- Characters of a template text. -/
def renderL : List TItem → List Char
  | [] => []
  | it :: T => renderItem it ++ renderL T

/-- A template text as a string. -/
def renderS (T : List TItem) : String := ⟨renderL T⟩

/-- No brace characters. -/
def braceFreeL (l : List Char) : Prop := ∀ c ∈ l, c ≠ '\x7b' ∧ c ≠ '\x7d'

/-- A legal placeholder name: non-empty and brace-free. -/
def wfName (n : List Char) : Prop := n ≠ [] ∧ braceFreeL n

/-- Well-formedness of one template piece. -/
def wfItem : TItem → Prop
  | .chunk s => braceFreeL s
  | .tok n => wfName n

/-- Well-formedness of a template text. -/
def wfT (T : List TItem) : Prop := ∀ it ∈ T, wfItem it

/-- Replace every `{k}` token by the literal chunk `rep`. -/
def substTok (k rep : List Char) (T : List TItem) : List TItem :=
  T.map (fun it => match it with
    | .tok n => if n = k then .chunk rep else .tok n
    | .chunk s => .chunk s)

/-- The effect of the whole substitution loop on a template text: each
non-skipped pair turns its tokens into literal chunks, in pair order. -/
def substFold (skipImages : Bool) (pairs : Rec) (T : List TItem) : List TItem :=
  pairs.foldl (fun T kv =>
    if skipImages = true ∧ kv.1 ∈ imageNames then T
    else substTok kv.1.data (strOfVal kv.2).data T) T

/-- A document whose every paragraph and cell text is given as a template. -/
structure DocT where
  tparas : List (List TItem)
  ttables : List (List (List (List TItem)))

/-- The document rendered from a template document (no pictures yet). -/
def renderDoc (dt : DocT) : Doc :=
  { paras := dt.tparas.map (fun T => { text := renderS T, imgs := [] }),
    tables := dt.ttables.map (fun t => t.map (fun row => row.map (fun T =>
      ({ text := renderS T, imgs := [] } : Cell)))) }

/-- All templates of a template document, paragraphs first, then table
cells in table/row/cell order. -/
def docTemplates (dt : DocT) : List (List TItem) :=
  dt.tparas ++ dt.ttables.flatMap (fun t => t.flatMap (fun row => row))

/-- All texts of a document, paragraphs first, then table cells in
table/row/cell order. -/
def docTexts (d : Doc) : List String :=
  d.paras.map Para.text ++
    d.tables.flatMap (fun t => t.flatMap (fun row => row.map Cell.text))

/-- Every template of the document is well-formed. -/
def wfDocT (dt : DocT) : Prop := ∀ T ∈ docTemplates dt, wfT T

/-- The name `n` occurs as a placeholder token somewhere in the document. -/
def tokInDoc (dt : DocT) (n : List Char) : Prop :=
  ∃ T ∈ docTemplates dt, TItem.tok n ∈ T

instance decBraceFreeL (l : List Char) : Decidable (braceFreeL l) :=
  inferInstanceAs (Decidable (∀ c ∈ l, c ≠ '\x7b' ∧ c ≠ '\x7d'))

instance decWfName (n : List Char) : Decidable (wfName n) :=
  inferInstanceAs (Decidable (n ≠ [] ∧ braceFreeL n))

instance decWfItem : (it : TItem) → Decidable (wfItem it)
  | .chunk s => inferInstanceAs (Decidable (braceFreeL s))
  | .tok n => inferInstanceAs (Decidable (wfName n))

instance decWfT (T : List TItem) : Decidable (wfT T) :=
  inferInstanceAs (Decidable (∀ it ∈ T, wfItem it))

instance decWfDocT (dt : DocT) : Decidable (wfDocT dt) :=
  inferInstanceAs (Decidable (∀ T ∈ docTemplates dt, wfT T))

/-! ## Canonical filename list

`canonAux pre stems` is the filename list the batch loop produces for
`stems`, with `pre` the stems already processed: the record whose stem has
already occurred `j` times receives candidate number `j`. -/

/-- Canonical names: position `i` gets `candName stems_i j` where `j`
counts the earlier occurrences of the same stem. -/
def canonAux (pre : List String) : List String → List String
  | [] => []
  | s :: ss => candName s (pre.count s) :: canonAux (pre ++ [s]) ss

/-- The canonical filename list for a batch of stems. -/
def canonNames (stems : List String) : List String := canonAux [] stems

/-- The filename accumulation of the batch loop, isolated from PDF
generation: fold `resolveName` over the stems. -/
def assignFrom (fl : List String) : List String → List String
  | [] => fl
  | s :: ss => assignFrom (fl ++ [resolveName fl s]) ss

/-- The stems of the records of a batch, starting at record index `idx`. -/
def stemsFrom (today : String) (idx : Nat) : List Rec → List String
  | [] => []
  | r :: rest => stemOf r idx today :: stemsFrom today (idx + 1) rest

/-! ## match_placeholders_to_columns (docx_handler.py lines 60-92) -/

/-- Python `str.lower()` (ASCII part, which covers the column names and
placeholders this application handles): lowercase each character. -/
def pyLower (s : String) : String := ⟨s.data.map Char.toLower⟩

/-- One iteration of the matcher loop: exact membership first, then the
first column (in column order) whose lowercase form equals the
placeholder's lowercase form, else unmatched. -/
def matchStep (cols : List String) (acc : List (String × String) × List String)
    (p : String) : List (String × String) × List String :=
  if p ∈ cols then (acc.1 ++ [(p, p)], acc.2)
  else
    match cols.find? (fun c => pyLower p == pyLower c) with
    | some c => (acc.1 ++ [(p, c)], acc.2)
    | none => (acc.1, acc.2 ++ [p])

/-- `match_placeholders_to_columns(placeholders, df_columns)`: the matched
association list and the unmatched list.  The placeholder set is passed as
the list in which Python's `for placeholder in placeholders` enumerates it. -/
def matchPlaceholders (placeholders cols : List String) :
    List (String × String) × List String :=
  placeholders.foldl (matchStep cols) ([], [])

/-! # Lemmas: the replacement scan -/

theorem containsSubL_iff (pat l : List Char) :
    containsSubL pat l = true ↔ pat <:+: l := by
  induction l with
  | nil =>
    simp [containsSubL, List.isPrefixOf_iff_prefix, List.prefix_nil, List.infix_nil]
  | cons a s ih =>
    simp [containsSubL, List.isPrefixOf_iff_prefix, ih, List.infix_cons_iff,
      Bool.or_eq_true]

theorem replaceAllAux_of_absent (p : Char) (ps rep : List Char) :
    ∀ l : List Char, ¬ (p :: ps) <:+: l → replaceAllAux p ps rep l = l := by
  intro l
  induction l with
  | nil => intro _; simp [replaceAllAux]
  | cons a s ih =>
    intro h
    rw [replaceAllAux, if_neg, ih]
    · intro h2; exact h (List.infix_cons_iff.mpr (Or.inr h2))
    · intro hp
      exact h ((List.isPrefixOf_iff_prefix.mp hp).isInfix)

theorem replaceAllAux_append_of_ne (p : Char) (ps rep : List Char) (s r : List Char)
    (h : ∀ c ∈ s, c ≠ p) :
    replaceAllAux p ps rep (s ++ r) = s ++ replaceAllAux p ps rep r := by
  induction s with
  | nil => simp
  | cons a s2 ih =>
    have ha : a ≠ p := h a (List.mem_cons_self a s2)
    rw [List.cons_append, replaceAllAux, if_neg]
    · rw [ih (fun c hc => h c (List.mem_cons_of_mem a hc)), List.cons_append]
    · intro hp
      have := (List.cons_prefix_cons.mp (List.isPrefixOf_iff_prefix.mp hp)).1
      exact ha this.symm

theorem replaceAllAux_tok_here (k rep r : List Char) :
    replaceAllAux '\x7b' (k ++ ['\x7d']) rep ('\x7b' :: (k ++ '\x7d' :: r)) =
      rep ++ replaceAllAux '\x7b' (k ++ ['\x7d']) rep r := by
  have hsplit : k ++ '\x7d' :: r = (k ++ ['\x7d']) ++ r := by simp
  rw [replaceAllAux, if_pos]
  · congr 1
    rw [hsplit, List.drop_left]
  · apply List.isPrefixOf_iff_prefix.mpr
    rw [hsplit]
    exact List.cons_prefix_cons.mpr ⟨rfl, List.prefix_append _ _⟩

theorem not_prefix_tokTail (m : List Char) :
    ∀ k r : List Char, m ≠ k → (∀ c ∈ m, c ≠ '\x7d') → (∀ c ∈ k, c ≠ '\x7d') →
      ¬ (k ++ ['\x7d']) <+: (m ++ '\x7d' :: r) := by
  induction m with
  | nil =>
    intro k r hne _ hk h
    cases k with
    | nil => exact hne rfl
    | cons c k2 =>
      have := (List.cons_prefix_cons.mp h).1
      exact hk c (List.mem_cons_self c k2) this
  | cons a m2 ih =>
    intro k r hne hm hk h
    cases k with
    | nil =>
      have := (List.cons_prefix_cons.mp h).1
      exact hm a (List.mem_cons_self a m2) this.symm
    | cons c k2 =>
      have h2 := List.cons_prefix_cons.mp h
      have hac : c = a := h2.1
      have hne2 : m2 ≠ k2 := by
        intro hh; exact hne (by rw [hh, hac])
      exact ih k2 r hne2 (fun c hc => hm c (List.mem_cons_of_mem a hc))
        (fun d hd => hk d (List.mem_cons_of_mem c hd)) h2.2

/-! # Lemmas: substitution on well-formed template texts -/

theorem tokStr_data (n : String) : (tokStr n).data = tokL n.data := by
  simp [tokStr, tokL, String.data_append]

theorem infix_append_left {l r x : List Char} (h : l <:+: r) : l <:+: x ++ r := by
  obtain ⟨s, t, hh⟩ := h
  exact ⟨x ++ s, t, by rw [← hh]; simp⟩

theorem not_infix_append_of_head_ne (p : Char) (pat : List Char) :
    ∀ s r : List Char, (∀ c ∈ s, c ≠ p) → (p :: pat) <:+: (s ++ r) →
      (p :: pat) <:+: r := by
  intro s
  induction s with
  | nil => intro r _ h; simpa using h
  | cons a s2 ih =>
    intro r hne h
    rcases List.infix_cons_iff.mp h with hpre | hinf
    · exact absurd (List.cons_prefix_cons.mp hpre).1.symm
        (hne a (List.mem_cons_self a s2))
    · exact ih r (fun c hc => hne c (List.mem_cons_of_mem a hc)) hinf

theorem replaceAllAux_renderL (k rep : List Char) (hk : wfName k) :
    ∀ T : List TItem, wfT T →
      replaceAllAux '\x7b' (k ++ ['\x7d']) rep (renderL T) =
        renderL (substTok k rep T) := by
  intro T
  induction T with
  | nil => intro _; simp [renderL, substTok, replaceAllAux]
  | cons it T ih =>
    intro hwf
    have hit : wfItem it := hwf it (List.mem_cons_self it T)
    have hT : wfT T := fun x hx => hwf x (List.mem_cons_of_mem it hx)
    cases it with
    | chunk s =>
      have hs : ∀ c ∈ s, c ≠ '\x7b' := fun c hc => (hit c hc).1
      show replaceAllAux '\x7b' (k ++ ['\x7d']) rep (s ++ renderL T) =
        renderL (substTok k rep (TItem.chunk s :: T))
      rw [replaceAllAux_append_of_ne _ _ _ _ _ hs, ih hT]
      simp [substTok, renderL, renderItem]
    | tok m =>
      have hm : braceFreeL m := hit.2
      have hshape : renderL (TItem.tok m :: T) = '\x7b' :: (m ++ '\x7d' :: renderL T) := by
        simp [renderL, renderItem, tokL]
      by_cases hmk : m = k
      · subst hmk
        rw [hshape, replaceAllAux_tok_here, ih hT]
        simp [substTok, renderL, renderItem]
      · rw [hshape, replaceAllAux, if_neg]
        · rw [replaceAllAux_append_of_ne _ _ _ _ _ (fun c hc => (hm c hc).1),
            replaceAllAux, if_neg, ih hT]
          · simp [substTok, renderL, renderItem, tokL, hmk]
          · intro hp
            have := (List.cons_prefix_cons.mp (List.isPrefixOf_iff_prefix.mp hp)).1
            exact absurd this (by decide)
        · intro hp
          have := List.cons_prefix_cons.mp (List.isPrefixOf_iff_prefix.mp hp)
          exact not_prefix_tokTail m k (renderL T) hmk
            (fun c hc => (hm c hc).2) (fun c hc => (hk.2 c hc).2) this.2

theorem tok_not_infix_renderL (k : List Char) (hk : wfName k) :
    ∀ T : List TItem, wfT T → (∀ n, TItem.tok n ∈ T → n ≠ k) →
      ¬ tokL k <:+: renderL T := by
  intro T
  induction T with
  | nil =>
    intro _ _ h
    rw [renderL] at h
    simp [tokL, List.infix_nil] at h
  | cons it T ih =>
    intro hwf hno h
    have hit : wfItem it := hwf it (List.mem_cons_self it T)
    have hT : wfT T := fun x hx => hwf x (List.mem_cons_of_mem it hx)
    have hnoT : ∀ n, TItem.tok n ∈ T → n ≠ k :=
      fun n hn => hno n (List.mem_cons_of_mem it hn)
    cases it with
    | chunk s =>
      have hs : ∀ c ∈ s, c ≠ '\x7b' := fun c hc => (hit c hc).1
      have : renderL (TItem.chunk s :: T) = s ++ renderL T := by
        simp [renderL, renderItem]
      rw [this, tokL] at h
      exact ih hT hnoT (not_infix_append_of_head_ne _ _ s _ hs h)
    | tok m =>
      have hm : braceFreeL m := hit.2
      have hmk : m ≠ k := hno m (List.mem_cons_self _ T)
      have hshape : renderL (TItem.tok m :: T) = '\x7b' :: (m ++ '\x7d' :: renderL T) := by
        simp [renderL, renderItem, tokL]
      rw [hshape, tokL] at h
      rcases List.infix_cons_iff.mp h with hpre | hinf
      · exact not_prefix_tokTail m k (renderL T) hmk
          (fun c hc => (hm c hc).2) (fun c hc => (hk.2 c hc).2)
          (List.cons_prefix_cons.mp hpre).2
      · have h2 := not_infix_append_of_head_ne '\x7b' (k ++ ['\x7d']) m _
          (fun c hc => (hm c hc).1) hinf
        rcases List.infix_cons_iff.mp h2 with hpre2 | hinf2
        · exact absurd (List.cons_prefix_cons.mp hpre2).1.symm (by decide)
        · exact ih hT hnoT hinf2

theorem tok_infix_renderL_of_mem {n : List Char} :
    ∀ T : List TItem, TItem.tok n ∈ T → tokL n <:+: renderL T := by
  intro T
  induction T with
  | nil => intro h; simp at h
  | cons it T ih =>
    intro h
    rcases List.mem_cons.mp h with rfl | hmem
    · have : renderL (TItem.tok n :: T) = tokL n ++ renderL T := by
        simp [renderL, renderItem]
      rw [this]
      exact (List.prefix_append _ _).isInfix
    · have : renderL (it :: T) = renderItem it ++ renderL T := rfl
      rw [this]
      exact infix_append_left (ih hmem)

theorem tok_mem_substTok {n k rep : List Char} :
    ∀ T : List TItem, (TItem.tok n ∈ substTok k rep T ↔ TItem.tok n ∈ T ∧ n ≠ k) := by
  intro T
  induction T with
  | nil => simp [substTok]
  | cons it T ih =>
    cases it with
    | chunk s =>
      simp only [substTok, List.map_cons, List.mem_cons] at *
      simp only [ih]
      constructor
      · rintro (h | h)
        · exact absurd h (by simp)
        · exact ⟨Or.inr h.1, h.2⟩
      · rintro ⟨h | h, hne⟩
        · exact absurd h (by simp)
        · exact Or.inr ⟨h, hne⟩
    | tok m =>
      by_cases hmk : m = k
      · subst hmk
        simp only [substTok, List.map_cons, if_pos rfl, List.mem_cons] at *
        simp only [ih]
        constructor
        · rintro (h | h)
          · exact absurd h (by simp)
          · exact ⟨Or.inr h.1, h.2⟩
        · rintro ⟨h | h, hne⟩
          · exact absurd (by injection h) hne
          · exact Or.inr ⟨h, hne⟩
      · simp only [substTok, List.map_cons, if_neg hmk, List.mem_cons] at *
        simp only [ih]
        constructor
        · rintro (h | h)
          · have : n = m := by injection h
            subst this
            exact ⟨Or.inl rfl, fun hh => hmk hh⟩
          · exact ⟨Or.inr h.1, h.2⟩
        · rintro ⟨h | h, hne⟩
          · exact Or.inl h
          · exact Or.inr ⟨h, hne⟩

theorem wfT_substTok {k rep : List Char} (hrep : braceFreeL rep) :
    ∀ T : List TItem, wfT T → wfT (substTok k rep T) := by
  intro T h it hit
  simp only [substTok, List.mem_map] at hit
  obtain ⟨it0, hit0, heq⟩ := hit
  cases it0 with
  | chunk s =>
    simp only at heq
    rw [← heq]
    exact h _ hit0
  | tok m =>
    by_cases hmk : m = k
    · simp only [if_pos hmk] at heq
      rw [← heq]
      exact hrep
    · simp only [if_neg hmk] at heq
      rw [← heq]
      exact h _ hit0

theorem tok_mem_substFold {n : List Char} (skip : Bool) :
    ∀ (pairs : Rec) (T : List TItem),
      (TItem.tok n ∈ substFold skip pairs T ↔
        TItem.tok n ∈ T ∧
          ∀ kv ∈ pairs, ¬(skip = true ∧ kv.1 ∈ imageNames) → kv.1.data ≠ n) := by
  intro pairs
  induction pairs with
  | nil => intro T; simp [substFold]
  | cons kv pairs ih =>
    intro T
    simp only [substFold, List.foldl_cons] at *
    by_cases hskip : skip = true ∧ kv.1 ∈ imageNames
    · rw [if_pos hskip]
      rw [ih T]
      constructor
      · rintro ⟨h1, h2⟩
        refine ⟨h1, ?_⟩
        intro kv2 hkv2 hact
        rcases List.mem_cons.mp hkv2 with rfl | hmem
        · exact absurd hskip hact
        · exact h2 kv2 hmem hact
      · rintro ⟨h1, h2⟩
        exact ⟨h1, fun kv2 hkv2 hact => h2 kv2 (List.mem_cons_of_mem kv hkv2) hact⟩
    · rw [if_neg hskip]
      rw [ih _]
      rw [tok_mem_substTok T]
      constructor
      · rintro ⟨⟨h1, hne⟩, h2⟩
        refine ⟨h1, ?_⟩
        intro kv2 hkv2 _
        rcases List.mem_cons.mp hkv2 with rfl | hmem
        · exact fun hh => hne hh.symm
        · exact h2 kv2 hmem (by assumption)
      · rintro ⟨h1, h2⟩
        refine ⟨⟨h1, ?_⟩, fun kv2 hkv2 hact => h2 kv2 (List.mem_cons_of_mem kv hkv2) hact⟩
        have := h2 kv (List.mem_cons_self kv pairs) hskip
        exact fun hh => this hh.symm

theorem wfT_substFold (skip : Bool) :
    ∀ (pairs : Rec) (T : List TItem),
      (∀ kv ∈ pairs, braceFreeL (strOfVal kv.2).data) → wfT T →
      wfT (substFold skip pairs T) := by
  intro pairs
  induction pairs with
  | nil => intro T _ h; exact h
  | cons kv pairs ih =>
    intro T hv hT
    simp only [substFold, List.foldl_cons]
    by_cases hskip : skip = true ∧ kv.1 ∈ imageNames
    · rw [if_pos hskip]
      exact ih T (fun kv2 h2 => hv kv2 (List.mem_cons_of_mem kv h2)) hT
    · rw [if_neg hskip]
      exact ih _ (fun kv2 h2 => hv kv2 (List.mem_cons_of_mem kv h2))
        (wfT_substTok (hv kv (List.mem_cons_self kv pairs)) T hT)

theorem pyReplace_noop (t pat rep : String) (h : containsSub t pat = false) :
    pyReplace t pat rep = t := by
  unfold pyReplace
  cases hp : pat.data with
  | nil => rfl
  | cons p ps =>
    have hni : ¬ (p :: ps) <:+: t.data := by
      intro hinf
      rw [containsSub, hp] at h
      rw [(containsSubL_iff _ _).mpr hinf] at h
      cases h
    show String.mk (replaceAllAux p ps rep.data t.data) = t
    rw [replaceAllAux_of_absent _ _ _ _ hni]

theorem applyPairStr_eq (skip : Bool) (t : String) (kv : String × Val) :
    applyPairStr skip t kv =
      if skip = true ∧ kv.1 ∈ imageNames then t
      else pyReplace t (tokStr kv.1) (strOfVal kv.2) := by
  unfold applyPairStr
  by_cases h1 : skip = true ∧ kv.1 ∈ imageNames
  · rw [if_pos h1, if_pos h1]
  · rw [if_neg h1, if_neg h1]
    by_cases h2 : containsSub t (tokStr kv.1) = true
    · rw [if_pos h2]
    · rw [if_neg h2, pyReplace_noop]
      exact Bool.not_eq_true _ ▸ (Bool.eq_false_iff.mpr h2)

theorem pyReplace_tok_renderS (name v : String) (T : List TItem)
    (hname : wfName name.data) (hT : wfT T) :
    pyReplace (renderS T) (tokStr name) v = renderS (substTok name.data v.data T) := by
  have hd : (tokStr name).data = '\x7b' :: (name.data ++ ['\x7d']) := by
    rw [tokStr_data]; rfl
  unfold pyReplace
  rw [hd]
  show String.mk (replaceAllAux '\x7b' (name.data ++ ['\x7d']) v.data (renderS T).data) = _
  have : (renderS T).data = renderL T := rfl
  rw [this, replaceAllAux_renderL _ _ hname T hT]
  rfl

theorem fillTextStr_renderS (skip : Bool) :
    ∀ (pairs : Rec) (T : List TItem),
      (∀ kv ∈ pairs,
        kv.1.data ≠ [] ∧ braceFreeL kv.1.data ∧ braceFreeL (strOfVal kv.2).data) →
      wfT T →
      fillTextStr skip pairs (renderS T) = renderS (substFold skip pairs T) := by
  intro pairs
  induction pairs with
  | nil => intro T _ _; rfl
  | cons kv pairs ih =>
    intro T hp hT
    have hkv := hp kv (List.mem_cons_self kv pairs)
    have hrest : ∀ kv2 ∈ pairs,
        kv2.1.data ≠ [] ∧ braceFreeL kv2.1.data ∧ braceFreeL (strOfVal kv2.2).data :=
      fun kv2 h2 => hp kv2 (List.mem_cons_of_mem kv h2)
    show List.foldl (applyPairStr skip) (renderS T) (kv :: pairs) =
      renderS (List.foldl _ T (kv :: pairs))
    rw [List.foldl_cons, List.foldl_cons, applyPairStr_eq]
    by_cases hskip : skip = true ∧ kv.1 ∈ imageNames
    · rw [if_pos hskip, if_pos hskip]
      exact ih T hrest hT
    · rw [if_neg hskip, if_neg hskip,
        pyReplace_tok_renderS _ _ _ ⟨hkv.1, hkv.2.1⟩ hT]
      exact ih _ hrest (wfT_substTok hkv.2.2 T hT)

theorem fillTI_fst (skip : Bool) :
    ∀ (pairs : Rec) (t : String) (il : List String),
      (fillTI skip pairs (t, il)).1 = fillTextStr skip pairs t := by
  intro pairs
  induction pairs with
  | nil => intro t il; rfl
  | cons kv pairs ih =>
    intro t il
    show (List.foldl (applyPairTI skip) (applyPairTI skip (t, il) kv) pairs).1 =
      List.foldl (applyPairStr skip) (applyPairStr skip t kv) pairs
    unfold applyPairTI applyPairStr
    by_cases h1 : skip = true ∧ kv.1 ∈ imageNames
    · rw [if_pos h1, if_pos h1]
      exact ih t il
    · rw [if_neg h1, if_neg h1]
      by_cases h2 : containsSub t (tokStr kv.1) = true
      · simp only [if_pos h2]
        exact ih _ _
      · simp only [if_neg h2]
        exact ih t il

/-! # Lemmas: document-level plumbing -/

theorem docTexts_renderDoc (dt : DocT) :
    docTexts (renderDoc dt) = (docTemplates dt).map renderS := by
  unfold docTexts renderDoc docTemplates
  simp only [List.map_map, List.map_append, List.flatMap_map, List.map_flatMap]
  rfl

theorem docTexts_replacePlaceholders (d : Doc) (pairs : Rec) (skip : Bool) :
    docTexts (replacePlaceholders d pairs skip) =
      (docTexts d).map (fillTextStr skip pairs) := by
  unfold docTexts replacePlaceholders
  simp only [List.map_map, List.map_append, List.flatMap_map, List.map_flatMap,
    fillTI_fst]
  rfl

/-! # Lemmas: decimal rendering -/

theorem digitChar_isDigit {n : Nat} (h : n < 10) : (Nat.digitChar n).isDigit = true := by
  interval_cases n <;> decide

theorem digitChar_sub48 {n : Nat} (h : n < 10) : (Nat.digitChar n).toNat - 48 = n := by
  interval_cases n <;> decide

theorem decReprAux_congr : ∀ (n f1 f2 : Nat), n ≤ f1 → n ≤ f2 →
    decReprAux f1 n = decReprAux f2 n := by
  intro n
  induction n using Nat.strong_induction_on with
  | _ n ih =>
    intro f1 f2 h1 h2
    by_cases hn : n < 10
    · cases f1 with
      | zero => cases f2 with
        | zero => rfl
        | succ g2 => rw [decReprAux, decReprAux, if_pos hn]
      | succ g1 =>
        cases f2 with
        | zero => rw [decReprAux, decReprAux, if_pos hn]
        | succ g2 => rw [decReprAux, decReprAux, if_pos hn, if_pos hn]
    · have hf1 : f1 ≠ 0 := by omega
      have hf2 : f2 ≠ 0 := by omega
      obtain ⟨g1, rfl⟩ := Nat.exists_eq_succ_of_ne_zero hf1
      obtain ⟨g2, rfl⟩ := Nat.exists_eq_succ_of_ne_zero hf2
      rw [decReprAux, decReprAux, if_neg hn, if_neg hn]
      have hd : n / 10 < n := Nat.div_lt_self (by omega) (by omega)
      rw [ih (n / 10) hd g1 g2 (by omega) (by omega)]

/-- The recurrence `decRepr` satisfies (the fuel is immaterial). -/
theorem decRepr_eq (n : Nat) :
    decRepr n = if n < 10 then [Nat.digitChar n]
      else decRepr (n / 10) ++ [Nat.digitChar (n % 10)] := by
  unfold decRepr
  by_cases hn : n < 10
  · cases n with
    | zero => rfl
    | succ m => rw [decReprAux, if_pos hn, if_pos hn]
  · have hf : n ≠ 0 := by omega
    obtain ⟨g, hg⟩ := Nat.exists_eq_succ_of_ne_zero hf
    rw [if_neg hn]
    conv_lhs => rw [hg, decReprAux]
    rw [if_neg (by omega : ¬ g + 1 < 10)]
    rw [← hg]
    rw [decReprAux_congr (n / 10) g (n / 10) (by omega) (le_refl _)]

theorem decRepr_ne_nil (n : Nat) : decRepr n ≠ [] := by
  rw [decRepr_eq]
  split
  · simp
  · simp

theorem decRepr_all_digit (n : Nat) : ∀ c ∈ decRepr n, c.isDigit = true := by
  induction n using Nat.strong_induction_on with
  | _ n ih =>
    rw [decRepr_eq]
    split
    · rename_i h
      intro c hc
      simp only [List.mem_singleton] at hc
      subst hc
      exact digitChar_isDigit h
    · rename_i h
      intro c hc
      rcases List.mem_append.mp hc with h1 | h1
      · exact ih (n / 10) (Nat.div_lt_self (by omega) (by omega)) c h1
      · simp only [List.mem_singleton] at h1
        subst h1
        exact digitChar_isDigit (Nat.mod_lt _ (by omega))

/-- The decimal parse used to invert `decRepr`. -/
def decVal (l : List Char) : Nat :=
  l.foldl (fun a c => a * 10 + (c.toNat - 48)) 0

theorem decVal_decRepr (n : Nat) : decVal (decRepr n) = n := by
  induction n using Nat.strong_induction_on with
  | _ n ih =>
    rw [decRepr_eq]
    split
    · rename_i h
      show (0 * 10 + ((Nat.digitChar n).toNat - 48)) = n
      rw [Nat.zero_mul, Nat.zero_add, digitChar_sub48 h]
    · rename_i h
      unfold decVal
      rw [List.foldl_append]
      have hdiv := ih (n / 10) (Nat.div_lt_self (by omega) (by omega))
      unfold decVal at hdiv
      rw [hdiv]
      show n / 10 * 10 + ((Nat.digitChar (n % 10)).toNat - 48) = n
      rw [digitChar_sub48 (Nat.mod_lt _ (by omega))]
      omega

theorem decRepr_inj {a b : Nat} (h : decRepr a = decRepr b) : a = b := by
  rw [← decVal_decRepr a, ← decVal_decRepr b, h]

/-! # Lemmas: filename candidates -/

theorem str_data_inj {a b : String} (h : a.data = b.data) : a = b := by
  cases a; cases b
  exact congrArg String.mk h

theorem takeWhile_append_all {p : Char → Bool} {l r : List Char}
    (h : ∀ c ∈ l, p c = true) :
    (l ++ r).takeWhile p = l ++ r.takeWhile p := by
  induction l with
  | nil => simp
  | cons a l2 ih =>
    rw [List.cons_append, List.takeWhile_cons, if_pos (h a (List.mem_cons_self a l2)),
      ih (fun c hc => h c (List.mem_cons_of_mem a hc)), List.cons_append]

theorem rev_digit_takeWhile {s : List Char} {d : List Char}
    (hd : ∀ c ∈ d, c.isDigit = true) :
    ((s ++ "_Report_".data) ++ d).reverse.takeWhile Char.isDigit = d.reverse := by
  rw [List.reverse_append, takeWhile_append_all]
  · rw [List.reverse_append]
    have h1 : "_Report_".data.reverse = '_' :: "tropeR_".data := by decide
    rw [h1, List.cons_append, List.takeWhile_cons]
    rw [if_neg (by decide)]
    simp
  · intro c hc
    exact hd c (List.mem_reverse.mp hc)

theorem candName_data_zero (s : String) :
    (candName s 0).data = (s.data ++ "_Report".data) ++ ".pdf".data := by
  show (s ++ "_Report.pdf").data = _
  rw [String.data_append]
  have : "_Report.pdf".data = "_Report".data ++ ".pdf".data := by decide
  rw [this, List.append_assoc]

theorem candName_data_succ (s : String) (k : Nat) :
    (candName s (k + 1)).data =
      ((s.data ++ "_Report_".data) ++ decRepr (k + 1)) ++ ".pdf".data := by
  show (s ++ "_Report_" ++ decReprS (k + 1) ++ ".pdf").data = _
  rw [String.data_append, String.data_append, String.data_append]
  rfl

theorem candName_zero_ne_succ (s s2 : String) (k : Nat) :
    candName s 0 ≠ candName s2 (k + 1) := by
  intro h
  have hd := congrArg String.data h
  rw [candName_data_zero, candName_data_succ] at hd
  have hm := List.append_cancel_right hd
  -- s.data ++ "_Report".data = (s2.data ++ "_Report_".data) ++ decRepr (k+1)
  have htw := congrArg (fun l => l.reverse.takeWhile Char.isDigit) hm
  simp only at htw
  rw [rev_digit_takeWhile (decRepr_all_digit (k + 1))] at htw
  rw [List.reverse_append] at htw
  have h1 : "_Report".data.reverse = 't' :: "ropeR_".data := by decide
  rw [h1, List.cons_append, List.takeWhile_cons, if_neg (by decide)] at htw
  exact decRepr_ne_nil (k + 1) (by
    have := htw.symm
    rw [← List.reverse_reverse (decRepr (k + 1)), this]
    rfl)

theorem candName_inj {s s2 : String} {j k : Nat}
    (h : candName s j = candName s2 k) : s = s2 ∧ j = k := by
  cases j with
  | zero =>
    cases k with
    | zero =>
      have hd := congrArg String.data h
      rw [candName_data_zero, candName_data_zero] at hd
      have := List.append_cancel_right (List.append_cancel_right hd)
      exact ⟨str_data_inj this, rfl⟩
    | succ k2 => exact absurd h (candName_zero_ne_succ s s2 k2)
  | succ j2 =>
    cases k with
    | zero => exact absurd h.symm (candName_zero_ne_succ s2 s j2)
    | succ k2 =>
      have hd := congrArg String.data h
      rw [candName_data_succ, candName_data_succ] at hd
      have hm := List.append_cancel_right hd
      have htw := congrArg (fun l => l.reverse.takeWhile Char.isDigit) hm
      simp only at htw
      rw [rev_digit_takeWhile (decRepr_all_digit (j2 + 1)),
        rev_digit_takeWhile (decRepr_all_digit (k2 + 1))] at htw
      have hdd : decRepr (j2 + 1) = decRepr (k2 + 1) :=
        List.reverse_inj.mp htw
      have hjk : j2 + 1 = k2 + 1 := decRepr_inj hdd
      rw [hdd] at hm
      have hs := List.append_cancel_right (List.append_cancel_right hm)
      exact ⟨str_data_inj hs, hjk⟩

/-! # Lemmas: the collision loop and the batch filename list -/

theorem canonAux_length : ∀ (ss pre : List String),
    (canonAux pre ss).length = ss.length := by
  intro ss
  induction ss with
  | nil => intro pre; rfl
  | cons t ss ih => intro pre; simp [canonAux, ih]

theorem mem_canonAux {s : String} {k : Nat} :
    ∀ (ss pre : List String),
      (candName s k ∈ canonAux pre ss ↔
        pre.count s ≤ k ∧ k < (pre ++ ss).count s) := by
  intro ss
  induction ss with
  | nil =>
    intro pre
    simp only [canonAux, List.not_mem_nil, List.append_nil, false_iff]
    omega
  | cons t ss ih =>
    intro pre
    simp only [canonAux, List.mem_cons]
    rw [ih (pre ++ [t])]
    have hcnt : ((pre ++ [t]) ++ ss).count s = (pre ++ t :: ss).count s := by
      rw [List.append_assoc, List.singleton_append]
    by_cases hst : t = s
    · subst hst
      have h1 : (pre ++ [t]).count t = pre.count t + 1 := by
        simp [List.count_append]
      have h2 : (pre ++ t :: ss).count t = pre.count t + 1 + ss.count t := by
        simp [List.count_append, List.count_cons]
        omega
      constructor
      · rintro (h | h)
        · obtain ⟨-, rfl⟩ := candName_inj h
          omega
        · rw [h1, hcnt, h2] at h
          omega
      · rintro ⟨hk1, hk2⟩
        by_cases hk : k = pre.count t
        · exact Or.inl (by rw [hk])
        · refine Or.inr ?_
          rw [h1, hcnt, h2]
          rw [h2] at hk2
          omega
    · have h1 : (pre ++ [t]).count s = pre.count s := by
        simp [List.count_append, List.count_singleton]
        intro hh
        exact absurd hh hst
      have h2 : (pre ++ t :: ss).count s = pre.count s + ss.count s := by
        simp [List.count_append, List.count_cons]
        intro hh
        exact absurd hh hst
      constructor
      · rintro (h | h)
        · obtain ⟨heq, -⟩ := candName_inj h
          exact absurd heq.symm hst
        · rw [h1, hcnt, h2] at h
          rw [h2]
          omega
      · rintro ⟨hk1, hk2⟩
        refine Or.inr ?_
        rw [h1, hcnt, h2]
        rw [h2] at hk2
        omega

theorem canonAux_nodup : ∀ (ss pre : List String), (canonAux pre ss).Nodup := by
  intro ss
  induction ss with
  | nil => intro pre; simp [canonAux]
  | cons t ss ih =>
    intro pre
    simp only [canonAux, List.nodup_cons]
    refine ⟨?_, ih (pre ++ [t])⟩
    intro hmem
    have := (mem_canonAux ss (pre ++ [t])).mp hmem
    have h1 : (pre ++ [t]).count t = pre.count t + 1 := by
      simp [List.count_append]
    omega

theorem resolveLoop_eq {used : List String} {s : String} {K : Nat} :
    ∀ (fuel start : Nat), (∀ k, start ≤ k → k < K → candName s k ∈ used) →
      candName s K ∉ used → start ≤ K → K < start + fuel →
      resolveLoop used s fuel start = K := by
  intro fuel
  induction fuel with
  | zero => intro start _ _ h3 h4; omega
  | succ fuel ih =>
    intro start h1 h2 h3 h4
    rw [resolveLoop]
    by_cases hs : start = K
    · subst hs
      rw [if_neg h2]
    · have hlt : start < K := lt_of_le_of_ne h3 hs
      rw [if_pos (h1 start (le_refl start) hlt)]
      exact ih (start + 1) (fun k hk1 hk2 => h1 k (by omega) hk2) h2 (by omega)
        (by omega)

theorem resolveName_canon (hist : List String) (s : String) :
    resolveName (canonNames hist) s = candName s (hist.count s) := by
  unfold resolveName
  apply congrArg (candName s)
  apply resolveLoop_eq
  · intro k _ hk
    exact (mem_canonAux hist []).mpr (by simpa using hk)
  · intro hmem
    have := (mem_canonAux hist []).mp hmem
    simp at this
  · omega
  · have hle : hist.count s ≤ hist.length := List.count_le_length s hist
    have hlen : (canonNames hist).length = hist.length := canonAux_length hist []
    unfold canonNames at hlen ⊢
    omega

theorem canonAux_append_one : ∀ (l pre : List String) (s : String),
    canonAux pre (l ++ [s]) =
      canonAux pre l ++ [candName s ((pre ++ l).count s)] := by
  intro l
  induction l with
  | nil => intro pre s; simp [canonAux]
  | cons t l ih =>
    intro pre s
    rw [List.cons_append, canonAux, canonAux, ih (pre ++ [t]) s,
      List.append_assoc, List.singleton_append, List.cons_append]

theorem assignFrom_canon : ∀ (ss hist : List String),
    assignFrom (canonNames hist) ss = canonNames (hist ++ ss) := by
  intro ss
  induction ss with
  | nil => intro hist; simp [assignFrom]
  | cons s ss ih =>
    intro hist
    rw [assignFrom, resolveName_canon]
    have key : canonNames (hist ++ [s]) =
        canonNames hist ++ [candName s (hist.count s)] := by
      unfold canonNames
      rw [canonAux_append_one]
      simp
    rw [← key, ih (hist ++ [s]), List.append_assoc, List.singleton_append]

theorem canonAux_getD : ∀ (ss pre : List String) (i : Nat), i < ss.length →
    (canonAux pre ss).getD i "" =
      candName (ss.getD i "") ((pre ++ ss.take i).count (ss.getD i "")) := by
  intro ss
  induction ss with
  | nil => intro pre i h; simp at h
  | cons t ss ih =>
    intro pre i h
    cases i with
    | zero => simp [canonAux]
    | succ i2 =>
      simp only [canonAux, List.getD_cons_succ, List.take_succ_cons]
      rw [ih (pre ++ [t]) i2 (by simpa using h), List.append_assoc,
        List.singleton_append]

theorem stemsFrom_length (today : String) :
    ∀ (rs : List Rec) (idx : Nat), (stemsFrom today idx rs).length = rs.length := by
  intro rs
  induction rs with
  | nil => intro idx; rfl
  | cons r rs ih => intro idx; simp [stemsFrom, ih]

theorem stemsFrom_getD (today : String) :
    ∀ (rs : List Rec) (idx i : Nat), i < rs.length →
      (stemsFrom today idx rs).getD i "" = stemOf (rs.getD i []) (idx + i) today := by
  intro rs
  induction rs with
  | nil => intro idx i h; simp at h
  | cons r rs ih =>
    intro idx i h
    cases i with
    | zero => simp [stemsFrom]
    | succ i2 =>
      simp only [stemsFrom, List.getD_cons_succ]
      rw [ih (idx + 1) i2 (by simpa using h)]
      congr 1
      omega

theorem gmLoop_ok (today : String) (conv : Nat → Except String String)
    (hconv : ∀ j, (conv j).isOk = true) :
    ∀ (rs : List Rec) (idx : Nat) (fl : List String)
      (za : List (String × String)),
      ∃ zz, gmLoop today conv rs idx fl za =
        .ok (zz, assignFrom fl (stemsFrom today idx rs)) := by
  intro rs
  induction rs with
  | nil => intro idx fl za; exact ⟨za, rfl⟩
  | cons r rs ih =>
    intro idx fl za
    have hok := hconv idx
    rw [gmLoop]
    cases hc : conv idx with
    | error e => rw [hc] at hok; cases hok
    | ok pdf =>
      show ∃ zz, gmLoop today conv rs (idx + 1) _ _ = _
      exact ih (idx + 1) _ _

theorem gmLoop_error (today : String) (conv : Nat → Except String String) :
    ∀ (rs : List Rec) (idx : Nat) (fl : List String)
      (za : List (String × String)) (i : Nat) (e : String),
      i < rs.length → conv (idx + i) = .error e →
      (∀ j, j < i → (conv (idx + j)).isOk = true) →
      gmLoop today conv rs idx fl za = .error e := by
  intro rs
  induction rs with
  | nil => intro idx fl za i e h _ _; simp at h
  | cons r rs ih =>
    intro idx fl za i e h he hpre
    rw [gmLoop]
    cases i with
    | zero =>
      rw [Nat.add_zero] at he
      rw [he]
    | succ i2 =>
      have hok := hpre 0 (Nat.succ_pos i2)
      rw [Nat.add_zero] at hok
      cases hc : conv idx with
      | error e2 => rw [hc] at hok; cases hok
      | ok pdf =>
        refine ih (idx + 1) _ _ i2 e (by simpa using h) ?_ ?_
        · rw [show idx + 1 + i2 = idx + (i2 + 1) by omega]
          exact he
        · intro j hj
          rw [show idx + 1 + j = idx + (j + 1) by omega]
          exact hpre (j + 1) (by omega)

/-! # Lemmas: site cleaning, stripping, dates -/

theorem dropWhile_eq_self_of_all {p : Char → Bool} {l : List Char}
    (h : ∀ c ∈ l, p c = false) : l.dropWhile p = l := by
  cases l with
  | nil => rfl
  | cons a l2 =>
    rw [List.dropWhile_cons, if_neg]
    rw [h a (List.mem_cons_self a l2)]
    simp

theorem stripL_eq_self {l : List Char} (h : ∀ c ∈ l, pyWs c = false) :
    stripL l = l := by
  unfold stripL
  rw [dropWhile_eq_self_of_all h,
    dropWhile_eq_self_of_all (fun c hc => h c (List.mem_reverse.mp hc)),
    List.reverse_reverse]

theorem cleanSiteL_eq_self {l : List Char}
    (h : ∀ c ∈ l, illegalFnameChar c = false) : cleanSiteL l = l := by
  unfold cleanSiteL
  induction l with
  | nil => rfl
  | cons a l2 ih =>
    rw [List.map_cons, if_neg, ih (fun c hc => h c (List.mem_cons_of_mem a hc))]
    rw [h a (List.mem_cons_self a l2)]
    simp

theorem mem_cleanSiteL_not_illegal {l : List Char} :
    ∀ c ∈ cleanSiteL l, illegalFnameChar c = false := by
  intro c hc
  simp only [cleanSiteL, List.mem_map] at hc
  obtain ⟨c0, _, heq⟩ := hc
  by_cases h : illegalFnameChar c0 = true
  · rw [if_pos h] at heq
    rw [← heq]
    decide
  · rw [if_neg h] at heq
    rw [← heq]
    exact Bool.eq_false_iff.mpr h

theorem mem_stripL {l : List Char} : ∀ c ∈ stripL l, c ∈ l := by
  intro c hc
  unfold stripL at hc
  rw [List.mem_reverse] at hc
  have h1 := (List.dropWhile_sublist (l := (l.dropWhile pyWs).reverse) pyWs).subset hc
  rw [List.mem_reverse] at h1
  exact (List.dropWhile_sublist pyWs).subset h1

theorem mem_slashToHyphen {s : String} : ∀ c ∈ (slashToHyphen s).data, c ≠ '/' := by
  intro c hc
  simp only [slashToHyphen, List.mem_map] at hc
  obtain ⟨c0, _, heq⟩ := hc
  by_cases h : (c0 == '/') = true
  · rw [if_pos h] at heq
    rw [← heq]
    decide
  · rw [if_neg h] at heq
    rw [← heq]
    intro hh
    exact h (by rw [hh]; rfl)

theorem illegal_not_digit {c : Char} (h : illegalFnameChar c = true) :
    c.isDigit = false := by
  simp only [illegalFnameChar, Bool.or_eq_true, beq_iff_eq] at h
  rcases h with ((((((((rfl | rfl) | rfl) | rfl) | rfl) | rfl) | rfl) | rfl) | rfl) <;> decide

theorem ws_not_digit {c : Char} (h : pyWs c = true) : c.isDigit = false := by
  simp only [pyWs, Bool.or_eq_true, beq_iff_eq] at h
  rcases h with ((((rfl | rfl) | rfl) | rfl) | rfl) | rfl <;> decide

theorem digit_not_illegal {c : Char} (h : c.isDigit = true) :
    illegalFnameChar c = false := by
  by_cases hx : illegalFnameChar c = true
  · rw [illegal_not_digit hx] at h
    cases h
  · exact Bool.eq_false_iff.mpr hx

theorem digit_not_ws {c : Char} (h : c.isDigit = true) : pyWs c = false := by
  by_cases hx : pyWs c = true
  · rw [ws_not_digit hx] at h
    cases h
  · exact Bool.eq_false_iff.mpr hx

theorem siteDefault_clean_id (i : Nat) :
    pyStrip (cleanSite ("Site_" ++ decReprS (i + 1))) = "Site_" ++ decReprS (i + 1) := by
  have hchars : ∀ c ∈ ("Site_" ++ decReprS (i + 1)).data,
      illegalFnameChar c = false ∧ pyWs c = false := by
    intro c hc
    rw [String.data_append] at hc
    rcases List.mem_append.mp hc with h1 | h1
    · revert h1
      have hfix : ∀ c2 ∈ "Site_".data, illegalFnameChar c2 = false ∧ pyWs c2 = false := by
        decide
      exact hfix c
    · have hd : c.isDigit = true := decRepr_all_digit (i + 1) c h1
      exact ⟨digit_not_illegal hd, digit_not_ws hd⟩
  unfold pyStrip cleanSite
  rw [cleanSiteL_eq_self (fun c hc => (hchars c hc).1),
    stripL_eq_self (fun c hc => (hchars c hc).2)]

/-! # Lemmas: assorted list plumbing -/

theorem getD_map {α β : Type} (f : α → β) :
    ∀ (l : List α) (i : Nat) (d : β) (d0 : α), i < l.length →
      (l.map f).getD i d = f (l.getD i d0) := by
  intro l
  induction l with
  | nil => intro i d d0 h; simp at h
  | cons a l2 ih =>
    intro i d d0 h
    cases i with
    | zero => rfl
    | succ i2 =>
      simp only [List.map_cons, List.getD_cons_succ]
      exact ih i2 d d0 (by simpa using h)

theorem getD_mem {α : Type} {l : List α} {i : Nat} {d : α} (h : i < l.length) :
    l.getD i d ∈ l := by
  induction l generalizing i with
  | nil => simp at h
  | cons a l2 ih =>
    cases i with
    | zero => exact List.mem_cons_self a l2
    | succ i2 =>
      simp only [List.getD_cons_succ]
      exact List.mem_cons_of_mem a (ih (by simpa using h))

theorem fillTI_snd_nil (skip : Bool) :
    ∀ (pairs : Rec) (t : String), (fillTI skip pairs (t, [])).2 = [] := by
  intro pairs
  induction pairs with
  | nil => intro t; rfl
  | cons kv pairs ih =>
    intro t
    show (List.foldl (applyPairTI skip) (applyPairTI skip (t, []) kv) pairs).2 = []
    unfold applyPairTI
    by_cases h1 : skip = true ∧ kv.1 ∈ imageNames
    · rw [if_pos h1]
      exact ih t
    · rw [if_neg h1]
      by_cases h2 : containsSub t (tokStr kv.1) = true
      · simp only [if_pos h2]
        exact ih _
      · simp only [if_neg h2]
        exact ih t

/-! # Lemmas: embed_images never fires -/

theorem strDoc_no_photo_tok :
    containsSub "<docx.document.Document object at 0x000001A2B3C4D5E6>"
      (tokStr "EVIDENCE & ATTACHMENTS - Photos") = false := by
  decide

theorem strDoc_no_images_tok :
    containsSub "<docx.document.Document object at 0x000001A2B3C4D5E6>"
      (tokStr "Images") = false := by
  decide

/-- The central consequence of testing placeholder membership in
`str(doc)`: since the default object repr contains no brace, neither
placeholder is ever detected, and `embed_images` returns every document
unchanged. -/
theorem embedImages_eq_self (ih : Option (String → List String)) (doc : Doc)
    (r : Rec) : embedImages ih doc r = doc := by
  cases ih with
  | none => rfl
  | some fetch =>
    simp [embedImages, strDoc, strDoc_no_photo_tok, strDoc_no_images_tok]

/-! # Lemmas: the placeholder matcher -/

theorem matchStep_decomp (cols : List String)
    (acc : List (String × String) × List String) (p : String) :
    matchStep cols acc p =
      (acc.1 ++ (matchStep cols ([], []) p).1,
       acc.2 ++ (matchStep cols ([], []) p).2) := by
  unfold matchStep
  by_cases h1 : p ∈ cols
  · rw [if_pos h1, if_pos h1]
    simp
  · rw [if_neg h1, if_neg h1]
    cases h2 : cols.find? (fun c => pyLower p == pyLower c) with
    | some c => simp
    | none => simp

theorem matchFold_decomp (cols : List String) :
    ∀ (phs : List String) (acc : List (String × String) × List String),
      phs.foldl (matchStep cols) acc =
        (acc.1 ++ (phs.foldl (matchStep cols) ([], [])).1,
         acc.2 ++ (phs.foldl (matchStep cols) ([], [])).2) := by
  intro phs
  induction phs with
  | nil => intro acc; simp
  | cons p phs ih =>
    intro acc
    rw [List.foldl_cons, List.foldl_cons, ih (matchStep cols acc p),
      ih (matchStep cols ([], []) p), matchStep_decomp cols acc p]
    simp [List.append_assoc]

theorem matchPlaceholders_cons (p : String) (phs cols : List String) :
    matchPlaceholders (p :: phs) cols =
      ((matchStep cols ([], []) p).1 ++ (matchPlaceholders phs cols).1,
       (matchStep cols ([], []) p).2 ++ (matchPlaceholders phs cols).2) := by
  unfold matchPlaceholders
  rw [List.foldl_cons, matchFold_decomp cols phs (matchStep cols ([], []) p)]

theorem match_exact_mem (cols : List String) :
    ∀ (phs : List String) (p : String), p ∈ phs → p ∈ cols →
      (p, p) ∈ (matchPlaceholders phs cols).1 := by
  intro phs
  induction phs with
  | nil => intro p h; simp at h
  | cons q phs ih =>
    intro p hp hcol
    rw [matchPlaceholders_cons]
    rcases List.mem_cons.mp hp with rfl | hmem
    · apply List.mem_append_left
      unfold matchStep
      rw [if_pos hcol]
      simp
    · exact List.mem_append_right _ (ih p hmem hcol)

theorem match_ci_mem (cols : List String) :
    ∀ (phs : List String) (p c : String), p ∈ phs → p ∉ cols →
      cols.find? (fun c2 => pyLower p == pyLower c2) = some c →
      (p, c) ∈ (matchPlaceholders phs cols).1 := by
  intro phs
  induction phs with
  | nil => intro p c h; simp at h
  | cons q phs ih =>
    intro p c hp hcol hfind
    rw [matchPlaceholders_cons]
    rcases List.mem_cons.mp hp with rfl | hmem
    · apply List.mem_append_left
      unfold matchStep
      rw [if_neg hcol, hfind]
      simp
    · exact List.mem_append_right _ (ih p c hmem hcol hfind)

theorem match_unmatched_mem (cols : List String) :
    ∀ (phs : List String) (p : String), p ∈ phs → p ∉ cols →
      cols.find? (fun c2 => pyLower p == pyLower c2) = none →
      p ∈ (matchPlaceholders phs cols).2 := by
  intro phs
  induction phs with
  | nil => intro p h; simp at h
  | cons q phs ih =>
    intro p hp hcol hfind
    rw [matchPlaceholders_cons]
    rcases List.mem_cons.mp hp with rfl | hmem
    · apply List.mem_append_left
      unfold matchStep
      rw [if_neg hcol, hfind]
      simp
    · exact List.mem_append_right _ (ih p hmem hcol hfind)

theorem match_keys_branch (cols : List String) :
    ∀ (phs : List String) (p : String),
      p ∈ (matchPlaceholders phs cols).1.map Prod.fst →
      p ∈ phs ∧ (p ∈ cols ∨ ∃ c, cols.find? (fun c2 => pyLower p == pyLower c2) = some c) := by
  intro phs
  induction phs with
  | nil => intro p h; simp [matchPlaceholders] at h
  | cons q phs ih =>
    intro p hp
    rw [matchPlaceholders_cons] at hp
    rw [List.map_append] at hp
    rcases List.mem_append.mp hp with h1 | h1
    · unfold matchStep at h1
      by_cases hq : q ∈ cols
      · rw [if_pos hq] at h1
        simp at h1
        subst h1
        exact ⟨List.mem_cons_self p phs, Or.inl hq⟩
      · rw [if_neg hq] at h1
        cases hf : cols.find? (fun c2 => pyLower q == pyLower c2) with
        | some c =>
          rw [hf] at h1
          simp at h1
          subst h1
          exact ⟨List.mem_cons_self p phs, Or.inr ⟨c, hf⟩⟩
        | none =>
          rw [hf] at h1
          simp at h1
    · obtain ⟨hmem, hbr⟩ := ih p h1
      exact ⟨List.mem_cons_of_mem q hmem, hbr⟩

theorem match_unmatched_branch (cols : List String) :
    ∀ (phs : List String) (p : String),
      p ∈ (matchPlaceholders phs cols).2 →
      p ∈ phs ∧ p ∉ cols ∧ cols.find? (fun c2 => pyLower p == pyLower c2) = none := by
  intro phs
  induction phs with
  | nil => intro p h; simp [matchPlaceholders] at h
  | cons q phs ih =>
    intro p hp
    rw [matchPlaceholders_cons] at hp
    rcases List.mem_append.mp hp with h1 | h1
    · unfold matchStep at h1
      by_cases hq : q ∈ cols
      · rw [if_pos hq] at h1
        simp at h1
      · rw [if_neg hq] at h1
        cases hf : cols.find? (fun c2 => pyLower q == pyLower c2) with
        | some c =>
          rw [hf] at h1
          simp at h1
        | none =>
          rw [hf] at h1
          simp at h1
          subst h1
          exact ⟨List.mem_cons_self p phs, hq, hf⟩
    · obtain ⟨hmem, hbr⟩ := ih p h1
      exact ⟨List.mem_cons_of_mem q hmem, hbr⟩

theorem match_covers (cols : List String) :
    ∀ (phs : List String) (p : String), p ∈ phs →
      p ∈ (matchPlaceholders phs cols).1.map Prod.fst ∨
        p ∈ (matchPlaceholders phs cols).2 := by
  intro phs
  induction phs with
  | nil => intro p h; simp at h
  | cons q phs ih =>
    intro p hp
    rw [matchPlaceholders_cons, List.map_append]
    rcases List.mem_cons.mp hp with rfl | hmem
    · unfold matchStep
      by_cases hq : p ∈ cols
      · rw [if_pos hq]
        left
        apply List.mem_append_left
        simp
      · rw [if_neg hq]
        cases hf : cols.find? (fun c2 => pyLower p == pyLower c2) with
        | some c =>
          left
          apply List.mem_append_left
          simp
        | none =>
          right
          apply List.mem_append_left
          simp
    · rcases ih p hmem with h1 | h1
      · exact Or.inl (List.mem_append_right _ h1)
      · exact Or.inr (List.mem_append_right _ h1)

/-! # Claim theorems -/

/-- **C1** (claim: `embed_images` strips the first occurrence of the
recognized image token and inserts each fetched image right after it, with
numbered captions).  What the code does instead: placeholder detection
tests `'{...}' in str(doc)`, and `str(doc)` is the default object repr of
a python-docx `Document`, which never contains the token — so on the
failing input (a document whose paragraph contains `{Images}`, a record
with a non-empty `Images` value, and a fetcher that returns one image)
`embed_images` returns the document unchanged: the token is not stripped
and no image or caption is inserted. -/
theorem C1_embed_images_never_fires :
    embedImages (some (fun _ => ["QUJDREVG"]))
        { paras := [{ text := "Photos: \x7bImages\x7d", imgs := [] }], tables := [] }
        [("Images", Val.vStr "http://example.com/a.jpg")] =
      { paras := [{ text := "Photos: \x7bImages\x7d", imgs := [] }], tables := [] } ∧
    containsSub "Photos: \x7bImages\x7d" (tokStr "Images") = true ∧
    valFalsyOrNa (Val.vStr "http://example.com/a.jpg") = false ∧
    recGet [("Images", Val.vStr "http://example.com/a.jpg")] "Images" =
      some (Val.vStr "http://example.com/a.jpg") ∧
    ((fun _ => ["QUJDREVG"] : String → List String) "http://example.com/a.jpg") ≠ [] := by
  exact ⟨embedImages_eq_self _ _ _, by decide, by decide, by decide, by decide⟩

/-- **C4**: for a matched placeholder whose record value is `None`/`NaN`,
the substitution step of `replace_placeholders` inserts the empty string —
never the literal `"None"` or `"nan"` — i.e. the paragraph text becomes
`text.replace('{k}', '')`. -/
theorem C4_null_value_empty_subst :
    ∀ (skip : Bool) (k : String) (v : Val) (t : String) (il : List String),
      pdNotna v = false → (skip = true → k ∉ imageNames) →
      strOfVal v = "" ∧ strOfVal v ≠ "None" ∧ strOfVal v ≠ "nan" ∧
      (applyPairTI skip (t, il) (k, v)).1 = pyReplace t (tokStr k) "" := by
  intro skip k v t il hna hni
  have hs : strOfVal v = "" := by simp [strOfVal, hna]
  refine ⟨hs, by rw [hs]; decide, by rw [hs]; decide, ?_⟩
  have h1 : ¬(skip = true ∧ k ∈ imageNames) := fun hh => hni hh.1 hh.2
  unfold applyPairTI
  rw [if_neg h1]
  by_cases h2 : containsSub t (tokStr k) = true
  · simp only [if_pos h2, hs]
  · simp only [if_neg h2]
    exact (pyReplace_noop t (tokStr k) "" (Bool.eq_false_iff.mpr h2)).symm

theorem C4_null_value_empty_subst_witness :
    strOfVal Val.vNan = "" ∧ strOfVal Val.vNan ≠ "None" ∧ strOfVal Val.vNan ≠ "nan" ∧
    (applyPairTI true ("a \x7bDate\x7d b", []) ("Date", Val.vNan)).1 =
      pyReplace "a \x7bDate\x7d b" (tokStr "Date") "" :=
  C4_null_value_empty_subst true "Date" Val.vNan "a \x7bDate\x7d b" []
    (by decide) (by decide)

/-- **C5**: the matcher maps every placeholder with an exact column match
to itself; otherwise to the first column, in column order, whose lowercase
form equals the placeholder's lowercase form (`List.find?` returns the
first hit); otherwise puts it in the unmatched list — and the matched keys
and the unmatched list together cover exactly the input placeholders, with
no overlap. -/
theorem C5_matcher_correct :
    ∀ (phs cols : List String),
      (∀ p ∈ phs, p ∈ cols → (p, p) ∈ (matchPlaceholders phs cols).1) ∧
      (∀ p ∈ phs, p ∉ cols →
        ∀ c, cols.find? (fun c2 => pyLower p == pyLower c2) = some c →
          (p, c) ∈ (matchPlaceholders phs cols).1) ∧
      (∀ p ∈ phs, p ∉ cols →
        cols.find? (fun c2 => pyLower p == pyLower c2) = none →
          p ∈ (matchPlaceholders phs cols).2) ∧
      (∀ p, (p ∈ (matchPlaceholders phs cols).1.map Prod.fst ∨
             p ∈ (matchPlaceholders phs cols).2) ↔ p ∈ phs) ∧
      (∀ p, p ∈ (matchPlaceholders phs cols).1.map Prod.fst →
        p ∉ (matchPlaceholders phs cols).2) := by
  intro phs cols
  refine ⟨fun p hp hc => match_exact_mem cols phs p hp hc,
    fun p hp hc c hf => match_ci_mem cols phs p c hp hc hf,
    fun p hp hc hf => match_unmatched_mem cols phs p hp hc hf,
    fun p => ⟨fun h => ?_, fun h => match_covers cols phs p h⟩,
    fun p hk hu => ?_⟩
  · rcases h with h | h
    · exact (match_keys_branch cols phs p h).1
    · exact (match_unmatched_branch cols phs p h).1
  · obtain ⟨-, hbr⟩ := match_keys_branch cols phs p hk
    obtain ⟨-, hnc, hfn⟩ := match_unmatched_branch cols phs p hu
    rcases hbr with h | ⟨c, hc⟩
    · exact hnc h
    · rw [hfn] at hc
      cases hc

theorem C5_matcher_correct_witness :
    ("Date", "Date") ∈ (matchPlaceholders ["Date", "site", "X"] ["Date", "Site"]).1 ∧
    ("site", "Site") ∈ (matchPlaceholders ["Date", "site", "X"] ["Date", "Site"]).1 ∧
    "X" ∈ (matchPlaceholders ["Date", "site", "X"] ["Date", "Site"]).2 :=
  ⟨(C5_matcher_correct ["Date", "site", "X"] ["Date", "Site"]).1 "Date"
      (by decide) (by decide),
   (C5_matcher_correct ["Date", "site", "X"] ["Date", "Site"]).2.1 "site"
      (by decide) (by decide) "Site" (by decide),
   (C5_matcher_correct ["Date", "site", "X"] ["Date", "Site"]).2.2.1 "X"
      (by decide) (by decide) (by decide)⟩

/-- **C8**: for each invalid batch input — `None`, a non-sized object, or
an empty record table — `generate_multiple_client_reports` raises a
descriptive input error (no archive is produced). -/
theorem C8_input_validation :
    ∀ (today : String) (conv : Nat → Except String String) (t : String),
      generateMultipleReports DfInput.noneDf today conv =
        .error ("Error generating multiple client reports: DataFrame is None. Please ensure data is loaded and filtered correctly." ++ " | DataFrame is None") ∧
      generateMultipleReports (DfInput.notSized t) today conv =
        .error ("Error generating multiple client reports: Invalid DataFrame type: " ++ t ++ ". Expected pandas DataFrame." ++ " | DataFrame type issue: " ++ t) ∧
      generateMultipleReports (DfInput.table []) today conv =
        .error "Error generating multiple client reports: DataFrame is empty. No records to generate reports for." :=
  fun _ _ _ => ⟨rfl, rfl, rfl⟩

/-- **C10**: for a non-empty record table, an out-of-range `row_index`
does not raise: `generate_from_template` silently resets it to 0 and fills
from the first record. -/
theorem C10_row_index_fallback :
    ∀ (ih : Option (String → List String)) (doc : Doc) (df : List Rec)
      (rowIndex : Nat),
      df ≠ [] → df.length ≤ rowIndex →
      generateFromTemplate ih doc df rowIndex = generateFromTemplate ih doc df 0 ∧
      (generateFromTemplate ih doc df rowIndex).isOk = true := by
  intro ih doc df rowIndex hne hge
  have h0 : ¬ df.length = 0 := fun h => hne (List.length_eq_zero.mp h)
  constructor
  · unfold generateFromTemplate
    rw [if_neg h0, if_neg h0]
    have e1 : (if rowIndex ≥ df.length then 0 else rowIndex) = 0 := if_pos hge
    have e2 : (if 0 ≥ df.length then 0 else 0) = 0 := by
      by_cases h : 0 ≥ df.length
      · exact if_pos h
      · exact if_neg h
    rw [e1, e2]
  · unfold generateFromTemplate
    rw [if_neg h0]
    rfl

theorem C10_row_index_fallback_witness :
    generateFromTemplate none { paras := [], tables := [] }
        [[("A", Val.vStr "x")]] 5 =
      generateFromTemplate none { paras := [], tables := [] }
        [[("A", Val.vStr "x")]] 0 ∧
    (generateFromTemplate none { paras := [], tables := [] }
        [[("A", Val.vStr "x")]] 5).isOk = true :=
  C10_row_index_fallback none { paras := [], tables := [] }
    [[("A", Val.vStr "x")]] 5 (by decide) (by decide)

/-- **C2 counterexample**: the claim says the image placeholder token is
*removed* when the record has no value for it.  On a template whose
paragraph is `"Photo: {Images}"` and a record without an `Images` field,
generation succeeds and inserts no image — but the output document still
contains the literal token (text substitution skips image placeholders and
`embed_images` leaves the document unmodified). -/
theorem C2_counterexample :
    generateFromTemplate (some (fun _ => ["IMGDATA"]))
        { paras := [{ text := "Photo: \x7bImages\x7d", imgs := [] }], tables := [] }
        [[("Site Name", Val.vStr "X")]] 0 =
      Except.ok
        { paras := [{ text := "Photo: \x7bImages\x7d", imgs := [] }], tables := [] } ∧
    recGet [("Site Name", Val.vStr "X")] "Images" = none ∧
    containsSub "Photo: \x7bImages\x7d" (tokStr "Images") = true := by
  exact ⟨by decide, by decide, by decide⟩

/-- **C3 counterexample**: the placeholder `site` is *matched* by the
matcher (case-insensitively, to column `Site`), yet `replace_placeholders`
— which substitutes by record key only — leaves the literal `{site}` token
in the document, so a matched placeholder's token survives filling. -/
theorem C3_counterexample :
    (matchPlaceholders ["site"] ["Site"]).1 = [("site", "Site")] ∧
    replacePlaceholders
        { paras := [{ text := "x \x7bsite\x7d y", imgs := [] }], tables := [] }
        [("Site", Val.vStr "V")] true =
      { paras := [{ text := "x \x7bsite\x7d y", imgs := [] }], tables := [] } ∧
    containsSub "x \x7bsite\x7d y" (tokStr "site") = true := by
  exact ⟨by decide, by decide, by decide⟩

/-- **C6 counterexample**: the claim groups records by (cleaned site,
normalized date) and says the *first* record of each group keeps the base
name.  Records `("A_B", "c")` and `("A", "B_c")` have different
(site, date) pairs but compose the same base string `A_B_c_Report.pdf`;
the second record is the only member of its group, yet it receives the
suffixed name `A_B_c_Report_1.pdf` instead of its base name. -/
theorem C6_counterexample :
    generateMultipleReports
        (DfInput.table
          [[("Site Name", Val.vStr "A_B"), ("Date", Val.vStr "c")],
           [("Site Name", Val.vStr "A"), ("Date", Val.vStr "B_c")]])
        "2026-10-12" (fun _ => .ok "P") =
      .ok ([("A_B_c_Report.pdf", "P"), ("A_B_c_Report_1.pdf", "P")], 2,
        ["A_B_c_Report.pdf", "A_B_c_Report_1.pdf"]) ∧
    pyStrip (cleanSite (siteStrOf [("Site Name", Val.vStr "A"), ("Date", Val.vStr "B_c")] 1)) = "A" ∧
    dateStrOf [("Site Name", Val.vStr "A"), ("Date", Val.vStr "B_c")] "2026-10-12" = "B_c" ∧
    pyStrip (cleanSite (siteStrOf [("Site Name", Val.vStr "A_B"), ("Date", Val.vStr "c")] 0)) = "A_B" ∧
    dateStrOf [("Site Name", Val.vStr "A_B"), ("Date", Val.vStr "c")] "2026-10-12" = "c" ∧
    (("A" : String), ("B_c" : String)) ≠ (("A_B" : String), ("c" : String)) ∧
    deriveBase [("Site Name", Val.vStr "A"), ("Date", Val.vStr "B_c")] 1 "2026-10-12" =
      "A_B_c_Report.pdf" ∧
    ("A_B_c_Report_1.pdf" : String) ≠ "A_B_c_Report.pdf" := by
  exact ⟨by decide, by decide, by decide, by decide, by decide, by decide,
    by decide, by decide⟩

/-- **C7 counterexample**: the claim says the site component falls back to
the index-based synthetic name when the site field is absent *or blank*.
For a record whose `Site Name` is present but blank, the code keeps the
empty string: the derived filename is `_2024-01-15_Report.pdf`, not
`Site_1_2024-01-15_Report.pdf`. -/
theorem C7_counterexample :
    recGet [("Site Name", Val.vStr ""), ("Date", Val.vStr "2024-01-15")]
        "Site Name" = some (Val.vStr "") ∧
    deriveBase [("Site Name", Val.vStr ""), ("Date", Val.vStr "2024-01-15")] 0
        "2026-10-12" = "_2024-01-15_Report.pdf" ∧
    ("_2024-01-15_Report.pdf" : String) ≠ "Site_1_2024-01-15_Report.pdf" := by
  exact ⟨by decide, by decide, by decide⟩

/-- **C9 counterexample**: the claim says the raised error reports *which
record index* failed.  Two batches over the same records, one whose PDF
conversion fails at record 0 and one whose conversion fails at record 1
(with the same underlying message), raise the *identical* top-level error
— so the raised error cannot report the failing record index (it is
printed to the debug console only). -/
theorem C9_counterexample :
    generateMultipleReports
        (DfInput.table
          [[("Site Name", Val.vStr "S"), ("Date", Val.vStr "D")],
           [("Site Name", Val.vStr "S"), ("Date", Val.vStr "D")]])
        "2026-10-12"
        (fun j => if j = 0 then .error "Error generating client report: boom" else .ok "P") =
      .error "Error generating multiple client reports: Error generating client report: boom" ∧
    generateMultipleReports
        (DfInput.table
          [[("Site Name", Val.vStr "S"), ("Date", Val.vStr "D")],
           [("Site Name", Val.vStr "S"), ("Date", Val.vStr "D")]])
        "2026-10-12"
        (fun j => if j = 1 then .error "Error generating client report: boom" else .ok "P") =
      .error "Error generating multiple client reports: Error generating client report: boom" ∧
    ((fun j => if j = 0 then Except.error "Error generating client report: boom" else Except.ok "P") 0 =
      (Except.error "Error generating client report: boom" : Except String String)) ∧
    ((fun j => if j = 1 then Except.error "Error generating client report: boom" else Except.ok "P") 0 =
      (Except.ok "P" : Except String String)) ∧
    ((fun j => if j = 1 then Except.error "Error generating client report: boom" else Except.ok "P") 1 =
      (Except.error "Error generating client report: boom" : Except String String)) := by
  exact ⟨by decide, by decide, by decide, by decide, by decide⟩

/-- **C9 amended**: a conversion failure at any record aborts the whole
batch: `generate_multiple_client_reports` raises an error wrapping the
originating message (so it reports *why*), and returns no archive.  (The
failing record index appears only in console diagnostics, not in the
raised error.) -/
theorem C9_amended_abort :
    ∀ (records : List Rec) (today : String) (conv : Nat → Except String String)
      (i : Nat) (e : String),
      i < records.length → conv i = .error e →
      (∀ j, j < i → (conv j).isOk = true) →
      generateMultipleReports (DfInput.table records) today conv =
        .error ("Error generating multiple client reports: " ++ e) := by
  intro records today conv i e hi he hpre
  simp only [generateMultipleReports]
  rw [if_neg (by omega : ¬records.length = 0)]
  have hloop := gmLoop_error today conv records 0 [] [] i e hi
    (by rw [Nat.zero_add]; exact he)
    (fun j hj => by rw [Nat.zero_add]; exact hpre j hj)
  rw [hloop]

theorem C9_amended_abort_witness :
    generateMultipleReports
        (DfInput.table
          [[("Site Name", Val.vStr "S")], [("Site Name", Val.vStr "S")]])
        "2026-10-12"
        (fun j => if j = 1 then .error "Error generating client report: boom" else .ok "P") =
      .error ("Error generating multiple client reports: " ++
        "Error generating client report: boom") :=
  C9_amended_abort
    [[("Site Name", Val.vStr "S")], [("Site Name", Val.vStr "S")]]
    "2026-10-12"
    (fun j => if j = 1 then .error "Error generating client report: boom" else .ok "P")
    1 "Error generating client report: boom" (by decide) (by decide)
    (by
      intro j hj
      have hj0 : j = 0 := by omega
      subst hj0
      rfl)

/-- **C3 amended**: for a template whose texts are well-formed
alternations of brace-free chunks and placeholder tokens, containing only
non-image placeholders, filled from a record whose field names are
non-empty and brace-free and whose stringified values are brace-free:
after `replace_placeholders`, every placeholder that is *exactly* a field
name of the record has zero literal tokens left anywhere in the document,
while every placeholder that is not exactly a field name — unmatched ones
*and* ones matched only case-insensitively — keeps its token in place. -/
theorem C3_amended_fill :
    ∀ (dt : DocT) (pairs : Rec),
      wfDocT dt →
      (∀ kv ∈ pairs,
        kv.1.data ≠ [] ∧ braceFreeL kv.1.data ∧ braceFreeL (strOfVal kv.2).data) →
      (∀ T ∈ docTemplates dt, ∀ img ∈ imageNames, TItem.tok img.data ∉ T) →
      (docTexts (replacePlaceholders (renderDoc dt) pairs true)).length =
        (docTemplates dt).length ∧
      (∀ i, i < (docTemplates dt).length →
        (∀ kv ∈ pairs, kv.1 ∉ imageNames →
          containsSub
            ((docTexts (replacePlaceholders (renderDoc dt) pairs true)).getD i "")
            (tokStr kv.1) = false) ∧
        (∀ n, TItem.tok n ∈ (docTemplates dt).getD i [] →
          (∀ kv ∈ pairs, kv.1.data ≠ n) →
          containsSub
            ((docTexts (replacePlaceholders (renderDoc dt) pairs true)).getD i "")
            (tokStr ⟨n⟩) = true)) := by
  intro dt pairs hwf hp hni
  constructor
  · rw [docTexts_replacePlaceholders, List.length_map, docTexts_renderDoc,
      List.length_map]
  · intro i hi
    have hTmem : (docTemplates dt).getD i [] ∈ docTemplates dt := getD_mem hi
    have hwfT : wfT ((docTemplates dt).getD i []) := hwf _ hTmem
    have hget : (docTexts (replacePlaceholders (renderDoc dt) pairs true)).getD i "" =
        renderS (substFold true pairs ((docTemplates dt).getD i [])) := by
      rw [docTexts_replacePlaceholders, docTexts_renderDoc, List.map_map,
        getD_map _ _ i "" [] hi]
      exact fillTextStr_renderS true pairs _ hp hwfT
    constructor
    · intro kv hkv hkvni
      rw [hget]
      have hwfk : wfName kv.1.data := ⟨(hp kv hkv).1, (hp kv hkv).2.1⟩
      apply Bool.eq_false_iff.mpr
      intro hcontains
      have hinf : tokL kv.1.data <:+:
          renderL (substFold true pairs ((docTemplates dt).getD i [])) := by
        rw [containsSub, tokStr_data] at hcontains
        exact (containsSubL_iff _ _).mp hcontains
      refine tok_not_infix_renderL kv.1.data hwfk _
        (wfT_substFold true pairs _ (fun kv2 h2 => (hp kv2 h2).2.2) hwfT) ?_ hinf
      intro m hm hmk
      obtain ⟨-, hall⟩ := (tok_mem_substFold true pairs _).mp hm
      exact hall kv hkv (fun hh => hkvni hh.2) hmk.symm
    · intro n hnT hnkeys
      rw [hget]
      have hmem2 : TItem.tok n ∈ substFold true pairs ((docTemplates dt).getD i []) :=
        (tok_mem_substFold true pairs _).mpr ⟨hnT, fun kv hkv _ => hnkeys kv hkv⟩
      have hinf := tok_infix_renderL_of_mem _ hmem2
      rw [containsSub, tokStr_data]
      exact (containsSubL_iff _ _).mpr hinf

theorem C3_amended_fill_witness :
    (docTexts (replacePlaceholders
        (renderDoc ⟨[[TItem.chunk "Hello ".data, TItem.tok "Site Name".data,
          TItem.chunk ", ".data, TItem.tok "Missing".data]], []⟩)
        [("Site Name", Val.vStr "DLF")] true)).length = 1 ∧
    containsSub ((docTexts (replacePlaceholders
        (renderDoc ⟨[[TItem.chunk "Hello ".data, TItem.tok "Site Name".data,
          TItem.chunk ", ".data, TItem.tok "Missing".data]], []⟩)
        [("Site Name", Val.vStr "DLF")] true)).getD 0 "")
      (tokStr "Site Name") = false ∧
    containsSub ((docTexts (replacePlaceholders
        (renderDoc ⟨[[TItem.chunk "Hello ".data, TItem.tok "Site Name".data,
          TItem.chunk ", ".data, TItem.tok "Missing".data]], []⟩)
        [("Site Name", Val.vStr "DLF")] true)).getD 0 "")
      (tokStr ⟨"Missing".data⟩) = true := by
  have h := C3_amended_fill
    ⟨[[TItem.chunk "Hello ".data, TItem.tok "Site Name".data,
      TItem.chunk ", ".data, TItem.tok "Missing".data]], []⟩
    [("Site Name", Val.vStr "DLF")]
    (by decide) (by decide) (by decide)
  refine ⟨h.1, ?_, ?_⟩
  · exact (h.2 0 (by decide)).1 ("Site Name", Val.vStr "DLF") (by decide) (by decide)
  · exact (h.2 0 (by decide)).2 "Missing".data (by decide) (by decide)

/-- **C2 amended**: for a well-formed template containing an image
placeholder whose field value is absent, empty or NaN in the selected
record, generation succeeds (no exception), zero images are inserted, no
paragraphs are added — and the placeholder token is *retained* in place,
not removed (text substitution skips the reserved image names and
`embed_images` leaves the document unmodified). -/
theorem C2_amended_image_value_missing :
    ∀ (dt : DocT) (df : List Rec) (rowIndex : Nat) (fetch : String → List String)
      (imgName : String),
      df ≠ [] → imgName ∈ imageNames →
      (∀ v, recGet (df.getD (if rowIndex ≥ df.length then 0 else rowIndex) [])
          imgName = some v → valFalsyOrNa v = true) →
      wfDocT dt →
      (∀ kv ∈ df.getD (if rowIndex ≥ df.length then 0 else rowIndex) [],
        kv.1.data ≠ [] ∧ braceFreeL kv.1.data ∧ braceFreeL (strOfVal kv.2).data) →
      ∃ d2, generateFromTemplate (some fetch) (renderDoc dt) df rowIndex =
          Except.ok d2 ∧
        (∀ p ∈ d2.paras, p.imgs = []) ∧
        (∀ t ∈ d2.tables, ∀ row ∈ t, ∀ c ∈ row, c.imgs = []) ∧
        d2.paras.length = dt.tparas.length ∧
        (∀ i, i < (docTemplates dt).length →
          TItem.tok imgName.data ∈ (docTemplates dt).getD i [] →
          containsSub ((docTexts d2).getD i "") (tokStr imgName) = true) := by
  intro dt df rowIndex fetch imgName hne himg _hval hwf hp
  have h0 : ¬ df.length = 0 := fun h => hne (List.length_eq_zero.mp h)
  refine ⟨replacePlaceholders (renderDoc dt)
    (df.getD (if rowIndex ≥ df.length then 0 else rowIndex) []) true, ?_, ?_, ?_, ?_, ?_⟩
  · unfold generateFromTemplate
    rw [if_neg h0]
    simp only [Option.isSome_some, if_pos]
    rw [embedImages_eq_self]
  · intro p hp2
    simp only [replacePlaceholders, List.mem_map] at hp2
    obtain ⟨p0, hp0, rfl⟩ := hp2
    simp only [renderDoc, List.mem_map] at hp0
    obtain ⟨T, -, rfl⟩ := hp0
    exact fillTI_snd_nil true _ _
  · intro t ht row hrow c hc
    simp only [replacePlaceholders, List.mem_map] at ht
    obtain ⟨t0, ht0, rfl⟩ := ht
    simp only [List.mem_map] at hrow
    obtain ⟨row0, hrow0, rfl⟩ := hrow
    simp only [List.mem_map] at hc
    obtain ⟨c0, hc0, rfl⟩ := hc
    simp only [renderDoc, List.mem_map] at ht0
    obtain ⟨t1, -, rfl⟩ := ht0
    simp only [List.mem_map] at hrow0
    obtain ⟨row1, -, rfl⟩ := hrow0
    simp only [List.mem_map] at hc0
    obtain ⟨T, -, rfl⟩ := hc0
    exact fillTI_snd_nil true _ _
  · simp [replacePlaceholders, renderDoc]
  · intro i hi htok
    have hTmem : (docTemplates dt).getD i [] ∈ docTemplates dt := getD_mem hi
    have hwfT : wfT ((docTemplates dt).getD i []) := hwf _ hTmem
    have hget : (docTexts (replacePlaceholders (renderDoc dt)
        (df.getD (if rowIndex ≥ df.length then 0 else rowIndex) []) true)).getD i "" =
        renderS (substFold true (df.getD (if rowIndex ≥ df.length then 0 else rowIndex) [])
          ((docTemplates dt).getD i [])) := by
      rw [docTexts_replacePlaceholders, docTexts_renderDoc, List.map_map,
        getD_map _ _ i "" [] hi]
      exact fillTextStr_renderS true _ _ hp hwfT
    rw [hget]
    have hmem2 : TItem.tok imgName.data ∈
        substFold true (df.getD (if rowIndex ≥ df.length then 0 else rowIndex) [])
          ((docTemplates dt).getD i []) := by
      refine (tok_mem_substFold true _ _).mpr ⟨htok, ?_⟩
      intro kv _ hact hdata
      exact hact ⟨rfl, by rw [str_data_inj hdata]; exact himg⟩
    have hinf := tok_infix_renderL_of_mem _ hmem2
    rw [containsSub, tokStr_data]
    exact (containsSubL_iff _ _).mpr hinf

theorem C2_amended_image_value_missing_witness :
    ∃ d2, generateFromTemplate (some (fun _ => ["IMG"]))
        (renderDoc ⟨[[TItem.chunk "Photo: ".data, TItem.tok "Images".data]], []⟩)
        [[("Site Name", Val.vStr "X")]] 0 = Except.ok d2 ∧
      (∀ p ∈ d2.paras, p.imgs = []) ∧
      (∀ t ∈ d2.tables, ∀ row ∈ t, ∀ c ∈ row, c.imgs = []) ∧
      d2.paras.length =
        (⟨[[TItem.chunk "Photo: ".data, TItem.tok "Images".data]], []⟩ : DocT).tparas.length ∧
      (∀ i, i < (docTemplates ⟨[[TItem.chunk "Photo: ".data, TItem.tok "Images".data]], []⟩).length →
        TItem.tok ("Images" : String).data ∈
          (docTemplates ⟨[[TItem.chunk "Photo: ".data, TItem.tok "Images".data]], []⟩).getD i [] →
        containsSub ((docTexts d2).getD i "") (tokStr "Images") = true) :=
  C2_amended_image_value_missing
    ⟨[[TItem.chunk "Photo: ".data, TItem.tok "Images".data]], []⟩
    [[("Site Name", Val.vStr "X")]] 0 (fun _ => ["IMG"]) "Images"
    (by decide) (by decide)
    (by
      intro v hv
      rw [(by decide : recGet
        (([[("Site Name", Val.vStr "X")]] : List Rec).getD
          (if 0 ≥ ([[("Site Name", Val.vStr "X")]] : List Rec).length then 0 else 0) [])
        "Images" = none)] at hv
      cases hv)
    (by decide) (by decide)

/-- **C6 amended**: in one successful batch run, all final filenames are
pairwise distinct, and among the records composing the same base string
(cleaned site + `_` + normalized date, `candName stem 0`), the first keeps
the base name and the j-th later one receives the `_j` suffix
(`candName stem j`), in order — in particular three records with identical
site and date receive `..._Report.pdf`, `..._Report_1.pdf`,
`..._Report_2.pdf`. -/
theorem C6_amended_names :
    ∀ (records : List Rec) (today : String) (conv : Nat → Except String String),
      (∀ j, (conv j).isOk = true) → records ≠ [] →
      ∃ (zz : List (String × String)) (fl : List String),
        generateMultipleReports (DfInput.table records) today conv =
          .ok (zz, records.length, fl) ∧
        fl.length = records.length ∧ fl.Nodup ∧
        (∀ i, i < records.length →
          fl.getD i "" =
            candName (stemOf (records.getD i []) i today)
              (((stemsFrom today 0 records).take i).count
                (stemOf (records.getD i []) i today))) := by
  intro records today conv hconv hne
  have h0 : ¬ records.length = 0 := fun h => hne (List.length_eq_zero.mp h)
  obtain ⟨zz, hloop⟩ := gmLoop_ok today conv hconv records 0 [] []
  have hassign : assignFrom [] (stemsFrom today 0 records) =
      canonNames (stemsFrom today 0 records) := by
    have : ([] : List String) = canonNames [] := rfl
    rw [this, assignFrom_canon]
    rfl
  refine ⟨zz, canonNames (stemsFrom today 0 records), ?_, ?_, ?_, ?_⟩
  · simp only [generateMultipleReports]
    rw [if_neg h0, hloop, hassign]
  · rw [canonNames, canonAux_length, stemsFrom_length]
  · exact canonAux_nodup _ []
  · intro i hi
    have hilen : i < (stemsFrom today 0 records).length := by
      rw [stemsFrom_length]; exact hi
    rw [canonNames, canonAux_getD _ [] i hilen, List.nil_append,
      stemsFrom_getD today records 0 i hi, Nat.zero_add]

theorem C6_amended_names_witness :
    ∃ (zz : List (String × String)) (fl : List String),
      generateMultipleReports
          (DfInput.table
            [[("Site Name", Val.vStr "Plaza"), ("Date", Val.vStr "2024-01-15")],
             [("Site Name", Val.vStr "Plaza"), ("Date", Val.vStr "2024-01-15")],
             [("Site Name", Val.vStr "Plaza"), ("Date", Val.vStr "2024-01-15")]])
          "2026-10-12" (fun _ => .ok "P") =
        .ok (zz, 3, fl) ∧
      fl.length = 3 ∧ fl.Nodup ∧
      (∀ i, i < 3 →
        fl.getD i "" =
          candName
            (stemOf
              (([[("Site Name", Val.vStr "Plaza"), ("Date", Val.vStr "2024-01-15")],
                 [("Site Name", Val.vStr "Plaza"), ("Date", Val.vStr "2024-01-15")],
                 [("Site Name", Val.vStr "Plaza"), ("Date", Val.vStr "2024-01-15")]] : List Rec).getD i [])
              i "2026-10-12")
            (((stemsFrom "2026-10-12" 0
                [[("Site Name", Val.vStr "Plaza"), ("Date", Val.vStr "2024-01-15")],
                 [("Site Name", Val.vStr "Plaza"), ("Date", Val.vStr "2024-01-15")],
                 [("Site Name", Val.vStr "Plaza"), ("Date", Val.vStr "2024-01-15")]]).take i).count
              (stemOf
                (([[("Site Name", Val.vStr "Plaza"), ("Date", Val.vStr "2024-01-15")],
                   [("Site Name", Val.vStr "Plaza"), ("Date", Val.vStr "2024-01-15")],
                   [("Site Name", Val.vStr "Plaza"), ("Date", Val.vStr "2024-01-15")]] : List Rec).getD i [])
                i "2026-10-12"))) :=
  C6_amended_names
    [[("Site Name", Val.vStr "Plaza"), ("Date", Val.vStr "2024-01-15")],
     [("Site Name", Val.vStr "Plaza"), ("Date", Val.vStr "2024-01-15")],
     [("Site Name", Val.vStr "Plaza"), ("Date", Val.vStr "2024-01-15")]]
    "2026-10-12" (fun _ => .ok "P") (fun _ => rfl) (by decide)

/-- **C7 amended**: the derived filename is
`{cleaned_site}_{normalized_date}_Report.pdf`, where the site component
falls back to the index-based synthetic name `Site_{index+1}` only when
the site field is *absent* from the record (a blank value stays blank),
the characters `<>:"/\|?*` are replaced by `_` and surrounding whitespace
is trimmed (no illegal character survives), and the date component falls
back to the current date when the value is null and has `/` replaced by
`-` otherwise (no slash survives); on the spec's example record the result
is `DLF SCO-84_2024-01-15_Report.pdf`. -/
theorem C7_amended_filename :
    ∀ (r : Rec) (i : Nat) (today : String),
      deriveBase r i today =
        (pyStrip (cleanSite (siteStrOf r i)) ++ "_" ++ dateStrOf r today) ++
          "_Report.pdf" ∧
      (recGet r "Site Name" = none →
        pyStrip (cleanSite (siteStrOf r i)) = "Site_" ++ decReprS (i + 1)) ∧
      (∀ c ∈ (pyStrip (cleanSite (siteStrOf r i))).data, illegalFnameChar c = false) ∧
      (∀ v, recGet r "Date" = some v → pdNotna v = true →
        dateStrOf r today = slashToHyphen (pyStr v) ∧
        ∀ c ∈ (dateStrOf r today).data, c ≠ '/') ∧
      (∀ v, recGet r "Date" = some v → pdNotna v = false → dateStrOf r today = today) ∧
      deriveBase [("Site Name", Val.vStr "DLF SCO-84"), ("Date", Val.vStr "2024/01/15")]
          0 today = "DLF SCO-84_2024-01-15_Report.pdf" := by
  intro r i today
  refine ⟨rfl, ?_, ?_, ?_, ?_, rfl⟩
  · intro h
    unfold siteStrOf
    rw [h]
    exact siteDefault_clean_id i
  · intro c hc
    have hc2 : c ∈ cleanSiteL (siteStrOf r i).data := mem_stripL c hc
    exact mem_cleanSiteL_not_illegal c hc2
  · intro v hv hna
    have hdd : dateStrOf r today = slashToHyphen (pyStr v) := by
      unfold dateStrOf
      rw [hv]
      show (if pdNotna v = true then slashToHyphen (pyStr v) else today) = _
      rw [if_pos hna]
    rw [hdd]
    exact ⟨rfl, mem_slashToHyphen⟩
  · intro v hv hna
    unfold dateStrOf
    rw [hv]
    show (if pdNotna v = true then slashToHyphen (pyStr v) else today) = today
    rw [if_neg (by rw [hna]; simp)]

theorem C7_amended_filename_witness :
    pyStrip (cleanSite (siteStrOf [("Date", Val.vNan)] 0)) = "Site_" ++ decReprS 1 ∧
    dateStrOf [("Date", Val.vNan)] "2026-10-12" = "2026-10-12" ∧
    deriveBase [("Site Name", Val.vStr "DLF SCO-84"), ("Date", Val.vStr "2024/01/15")]
        0 "2026-10-12" = "DLF SCO-84_2024-01-15_Report.pdf" :=
  ⟨(C7_amended_filename [("Date", Val.vNan)] 0 "2026-10-12").2.1 (by decide),
   (C7_amended_filename [("Date", Val.vNan)] 0 "2026-10-12").2.2.2.2.1 Val.vNan
     (by decide) (by decide),
   (C7_amended_filename [("Date", Val.vNan)] 0 "2026-10-12").2.2.2.2.2⟩

end SGV
